import Mathlib

/-!
# Verification of the MAPAE SMS-to-Email phone verification service

Shallow embedding of the Go sources of `hyunbridge/mapae` (SMTP nonce
scanner, permissive MIME fallback parser, in-memory key/value store,
verification service) together with proofs about the embedded code.

Conventions:
* Go byte strings are modelled as `List Nat` (byte values); Go `string`
  values that live at the service layer (store keys/values, auth ids)
  are modelled as Lean `String`.
* Go `int` is modelled as `Int` where overflow/negativity matters and as
  `Nat` where the source only ever handles non-negative quantities.
* Fallible Go functions return `Option`/`Except`.
-/

set_option maxHeartbeats 1000000

namespace Mapae

/-! ## Byte classification helpers (ASCII) -/

/-- `'M'` or `'m'` (case-insensitive match used by the scanner). -/
def isMB (b : Nat) : Bool := b == 77 || b == 109

/-- `'A'` or `'a'`. -/
def isAB (b : Nat) : Bool := b == 65 || b == 97

/-- `'P'` or `'p'`. -/
def isPB (b : Nat) : Bool := b == 80 || b == 112

/-- `'E'` or `'e'`. -/
def isEB (b : Nat) : Bool := b == 69 || b == 101

/-- Hex digit test mirroring the Go source:
`('0'..'9') || ('a'..'f') || ('A'..'F')`. -/
def isHexB (b : Nat) : Bool :=
  (48 ≤ b && b ≤ 57) || (97 ≤ b && b ≤ 102) || (65 ≤ b && b ≤ 70)

/-- Whitespace inside the hex region of the scanner:
`' '`, `'\r'`, `'\n'`, `'\t'` (stream.go, case 7). -/
def isWsB (b : Nat) : Bool := b == 32 || b == 13 || b == 10 || b == 9

/-- `nonceHexLength` from `parser`: the nonce is 64 hex characters. -/
def nonceHexLength : Nat := 64

/-! ## The streaming nonce scanner (`nonceScanner` in stream.go)

The Go scanner carries `state int`, `digits []byte` and `found string`
(`found == ""` meaning "not found"; a found nonce always has 64 bytes, so
the empty string is unambiguous and we model `found` as `Option (List Nat)`).
-/

structure ScanSt where
  state : Nat
  digits : List Nat
  found : Option (List Nat)
deriving Repr, DecidableEq

/-- `newNonceScanner()`. -/
def initScan : ScanSt := ⟨0, [], none⟩

/-- `(*nonceScanner).reset`. -/
def scanReset (s : ScanSt) : ScanSt := { s with state := 0, digits := [] }

/-- `(*nonceScanner).resetAndMaybeStart`. -/
def resetAndMaybeStart (s : ScanSt) (b : Nat) : ScanSt :=
  if b == 91 then { s with state := 1, digits := [] } else scanReset s

/-- `(*nonceScanner).scanByte`.  The Go `switch s.state` has cases `0`..`7`
and states above `7` are unreachable from the initial state; the final
match arm reproduces `case 7`. -/
def scanByte (s : ScanSt) (b : Nat) : ScanSt :=
  match s.found with
  | some _ => s
  | none =>
    match s.state with
    | 0 => if b == 91 then { s with state := 1 } else s
    | 1 =>
      if isMB b then { s with state := 2 }
      else if b == 91 then { s with state := 1 }
      else { s with state := 0 }
    | 2 => if isAB b then { s with state := 3 } else resetAndMaybeStart s b
    | 3 => if isPB b then { s with state := 4 } else resetAndMaybeStart s b
    | 4 => if isAB b then { s with state := 5 } else resetAndMaybeStart s b
    | 5 => if isEB b then { s with state := 6 } else resetAndMaybeStart s b
    | 6 =>
      if b == 58 then { s with state := 7, digits := [] }
      else resetAndMaybeStart s b
    | _ =>
      if b == 93 then
        if s.digits.length == nonceHexLength then { s with found := some s.digits }
        else scanReset s
      else if isWsB b then scanReset s
      else if isHexB b then
        if nonceHexLength ≤ s.digits.length then scanReset s
        else { s with digits := s.digits ++ [b] }
      else resetAndMaybeStart s b

/-- `(*nonceScanner).Scan`: feed bytes one at a time, stopping early once a
nonce has been found (the early stop is observationally irrelevant because
`scanByte` is the identity once `found` is set). -/
def scanList (s : ScanSt) : List Nat → ScanSt
  | [] => s
  | b :: l =>
    let s' := scanByte s b
    if s'.found.isSome then s' else scanList s' l

/-! ### The naive leftmost token matcher (specification side)

`tokenPrefix l` checks whether `l` starts with a full token
`[MAPAE:<64 hex>]` (case-insensitive literal) and returns the 64 hex
digits; `firstToken` returns the digits of the leftmost token occurrence.
This is also a faithful model of the Go regular expression
`(?i)\[MAPAE:([0-9a-f]{64})\]` under Go's leftmost-first match semantics.
-/

/-- Take exactly `n` leading hex digits, returning them and the rest. -/
def grabHex : Nat → List Nat → Option (List Nat × List Nat)
  | 0, l => some ([], l)
  | _ + 1, [] => none
  | n + 1, b :: l =>
    if isHexB b then
      match grabHex n l with
      | some (ds, r) => some (b :: ds, r)
      | none => none
    else none

/-- Does `l` begin with a complete `[MAPAE:<64 hex>]` token?  Returns the
hex digits if so. -/
def tokenPrefix : List Nat → Option (List Nat)
  | b0 :: b1 :: b2 :: b3 :: b4 :: b5 :: b6 :: rest =>
    if b0 == 91 && isMB b1 && isAB b2 && isPB b3 && isAB b4 && isEB b5 && b6 == 58 then
      match grabHex nonceHexLength rest with
      | some (ds, c :: _) => if c == 93 then some ds else none
      | _ => none
    else none
  | _ => none

/-- Digits of the leftmost token occurrence in `l` (if any). -/
def firstToken : List Nat → Option (List Nat)
  | [] => none
  | b :: l =>
    match tokenPrefix (b :: l) with
    | some ds => some ds
    | none => firstToken l

/-! ### Completeness: scanning a complete token always accepts -/

/-- The letter constraints of a token `[MAPAE:...]` (case-insensitive). -/
def LitsOK (c1 c2 c3 c4 c5 : Nat) : Prop :=
  isMB c1 = true ∧ isAB c2 = true ∧ isPB c3 = true ∧ isAB c4 = true ∧ isEB c5 = true

/-- The bytes of a complete token: `[` five letters `:` digits `]`. -/
def tokBytes (c1 c2 c3 c4 c5 : Nat) (ds : List Nat) : List Nat :=
  91 :: c1 :: c2 :: c3 :: c4 :: c5 :: 58 :: (ds ++ [93])

/-! ### Soundness: any reported nonce is justified by a token in the input -/

/-- `l` contains a complete token whose digits are `ds`. -/
def HasTokD (l : List Nat) (ds : List Nat) : Prop :=
  ∃ u c1 c2 c3 c4 c5 v, LitsOK c1 c2 c3 c4 c5 ∧ ds.all isHexB = true ∧
    ds.length = 64 ∧ l = u ++ tokBytes c1 c2 c3 c4 c5 ds ++ v

/-- Invariant tying the scanner state to the input consumed so far: every
intermediate state is witnessed by a suffix of the consumed input, and a
found nonce is witnessed by a complete token occurrence. -/
def Justified (l : List Nat) (s : ScanSt) : Prop :=
  match s.found with
  | some ds => HasTokD l ds
  | none =>
    match s.state with
    | 0 => True
    | 1 => ∃ u, l = u ++ [91]
    | 2 => ∃ u c1, l = u ++ [91, c1] ∧ isMB c1 = true
    | 3 => ∃ u c1 c2, l = u ++ [91, c1, c2] ∧ isMB c1 = true ∧ isAB c2 = true
    | 4 => ∃ u c1 c2 c3, l = u ++ [91, c1, c2, c3] ∧
        isMB c1 = true ∧ isAB c2 = true ∧ isPB c3 = true
    | 5 => ∃ u c1 c2 c3 c4, l = u ++ [91, c1, c2, c3, c4] ∧
        isMB c1 = true ∧ isAB c2 = true ∧ isPB c3 = true ∧ isAB c4 = true
    | 6 => ∃ u c1 c2 c3 c4 c5, l = u ++ [91, c1, c2, c3, c4, c5] ∧
        LitsOK c1 c2 c3 c4 c5
    | 7 => ∃ u c1 c2 c3 c4 c5,
        l = u ++ (91 :: c1 :: c2 :: c3 :: c4 :: c5 :: 58 :: s.digits) ∧
        LitsOK c1 c2 c3 c4 c5 ∧ s.digits.all isHexB = true ∧ s.digits.length ≤ 64
    | _ => False

/-! ## The in-memory key/value store (`memory.Client`)

Entries are pairs of a value and an absolute Unix expiry time, exactly the
`entry` struct of the Go client.  `Take` holds the stripe mutex for the
whole read-check-delete sequence, so concurrent `Take` calls on the same
key are serialized by the lock; we therefore model `Take` as one atomic
step on the store state, and races as arbitrary interleavings (sequences)
of those atomic steps.  The bigcache error paths (`cache.Get` failures
other than not-found, `json.Unmarshal` failures on entries the client
itself wrote) are unreachable for stores populated by `SetEx`, so the
model has no error outcome.
-/

structure Entry where
  value : String
  expiresAt : Int
deriving Repr, DecidableEq

/-- Store state: an association map from keys to entries. -/
def Store := List (String × Entry)

instance : DecidableEq Store := inferInstanceAs (DecidableEq (List (String × Entry)))

/-- First-match association lookup. -/
def sget (k : String) : Store → Option Entry
  | [] => none
  | (k', e) :: t => if k' = k then some e else sget k t

/-- Delete a key (`cache.Delete`). -/
def sdel (k : String) : Store → Store
  | [] => []
  | (k', e) :: t => if k' = k then sdel k t else (k', e) :: sdel k t

/-- `SetEx`: overwrite `key` with `value` expiring `ttlSeconds` from `now`.
The Go client rejects non-positive TTLs with an error. -/
def setEx (st : Store) (now : Int) (key value : String) (ttlSeconds : Int) :
    Option Store :=
  if ttlSeconds ≤ 0 then none
  else some ((key, ⟨value, now + ttlSeconds⟩) :: sdel key st)

/-- `Get`: hit only when present and not expired; expired entries are
lazily deleted. -/
def memGet (st : Store) (now : Int) (key : String) : (String × Bool) × Store :=
  match sget key st with
  | none => (("", false), st)
  | some e =>
    if e.expiresAt ≤ now then (("", false), sdel key st)
    else ((e.value, true), st)

/-- `Take`: the atomic read-and-delete performed under the stripe lock. -/
def take (st : Store) (now : Int) (key : String) : (String × Bool) × Store :=
  match sget key st with
  | none => (("", false), st)
  | some e =>
    if e.expiresAt ≤ now then (("", false), sdel key st)
    else ((e.value, true), sdel key st)

/-- `fromHexNibble` from the Go client. -/
def fromHexNibble (b : Nat) : Option Nat :=
  if 48 ≤ b ∧ b ≤ 57 then some (b - 48)
  else if 97 ≤ b ∧ b ≤ 102 then some (b - 97 + 10)
  else if 65 ≤ b ∧ b ≤ 70 then some (b - 65 + 10)
  else none

/-- `stripeIndex`: nonce keys are striped by their first two hex nibbles
(deterministic in the key, hence two `Take` calls on the same key always
contend on the same mutex).  The FNV fallback for other keys is modelled
abstractly by an arbitrary but fixed function of the key. -/
def stripeIndex (fnv : String → Nat) (key : String) : Nat :=
  let pfx := "nonce:".data
  let d := key.data
  if d.length ≥ pfx.length + 2 ∧ d.take pfx.length = pfx then
    match fromHexNibble (d.get! pfx.length).toNat,
        fromHexNibble (d.get! (pfx.length + 1)).toNat with
    | some hi, some lo => hi * 16 + lo
    | _, _ => fnv key % 256
  else fnv key % 256

/-- Results of `n` serialized `Take` calls on the same key. -/
def takeSeq : Nat → Store → Int → String → List (String × Bool)
  | 0, _, _, _ => []
  | n + 1, st, now, key =>
    let r := take st now key
    r.1 :: takeSeq n r.2 now key

/-! ## Byte-string utilities (models of Go `strings`/`bytes` helpers on
ASCII byte lists) -/

/-- Go's `asciiSpace` set used by `strings.TrimSpace` on ASCII input:
`\t \n \v \f \r` and space. -/
def isSpaceB (b : Nat) : Bool := b == 32 || (9 ≤ b && b ≤ 13)

def trimRightWhile (p : Nat → Bool) (l : List Nat) : List Nat :=
  (l.reverse.dropWhile p).reverse

/-- `strings.TrimSpace` (ASCII). -/
def trimSpace (l : List Nat) : List Nat :=
  trimRightWhile isSpaceB (l.dropWhile isSpaceB)

/-- ASCII lower-casing of one byte. -/
def toLowerB (b : Nat) : Nat := if 65 ≤ b ∧ b ≤ 90 then b + 32 else b

/-- `strings.ToLower` (ASCII). -/
def toLowerL (l : List Nat) : List Nat := l.map toLowerB

/-- `strings.EqualFold` (ASCII). -/
def eqFold (a b : List Nat) : Bool := toLowerL a == toLowerL b

/-- Split at the first occurrence of `sep` (`strings.SplitN(_, sep, 2)`,
`none` when `sep` does not occur, in which case Go returns one part). -/
def splitN2 (sep : Nat) : List Nat → Option (List Nat × List Nat)
  | [] => none
  | b :: t =>
    if b = sep then some ([], t)
    else (splitN2 sep t).map (fun p => (b :: p.1, p.2))

/-- `strings.Split` on a single-byte separator. -/
def splitOnBAux (sep : Nat) : List Nat → List Nat → List (List Nat)
  | [], acc => [acc.reverse]
  | b :: t, acc =>
    if b = sep then acc.reverse :: splitOnBAux sep t []
    else splitOnBAux sep t (b :: acc)

def splitOnB (sep : Nat) (l : List Nat) : List (List Nat) := splitOnBAux sep l []

/-- `strings.HasPrefix`. -/
def hasPrefixL : List Nat → List Nat → Bool
  | _, [] => true
  | [], _ :: _ => false
  | a :: s, b :: p => a == b && hasPrefixL s p

/-- Byte list of an ASCII string literal (for readability of the model). -/
def strB (s : String) : List Nat := s.data.map Char.toNat

/-- `decodeASCII`: keep only bytes below `0x80`. -/
def decodeASCII (l : List Nat) : List Nat := l.filter (fun b => b < 128)

def isDigitB (b : Nat) : Bool := 48 ≤ b && b ≤ 57

/-! ## The permissive fallback parser (`internal/transport/smtp/parser`) -/

/-- `IsValidNonce`. -/
def isValidNonce (l : List Nat) : Bool :=
  l.length == nonceHexLength && l.all isHexB

/-- `normalizeDigits`: strip everything but ASCII digits. -/
def normalizeDigits (l : List Nat) : List Nat := l.filter isDigitB

/-- The carrier gateway domain table. -/
def carrierLookup (domain : List Nat) : Option (List Nat) :=
  if domain = strB "vmms.nate.com" then some (strB "SKT")
  else if domain = strB "mmsmail.uplus.co.kr" then some (strB "LGU+")
  else if domain = strB "mms.kt.co.kr" then some (strB "KT")
  else none

/-- Characters allowed in the phone group of `phoneRe`: `[0-9-]`. -/
def isDigitDash (b : Nat) : Bool := isDigitB b || b == 45

/-- Characters allowed in the domain group of `phoneRe`: `[A-Za-z0-9.-]`. -/
def isDomainB (b : Nat) : Bool :=
  (65 ≤ b && b ≤ 90) || (97 ≤ b && b ≤ 122) || isDigitB b || b == 46 || b == 45

/-- Greedy backtracking attempt of `([0-9-]{9,13})@([A-Za-z0-9.-]+)` anchored
at the start of `s`, trying the phone-group length from `hi` down to 9
(leftmost-first semantics of Go's `regexp` for this pattern). -/
def tryPhoneLen (s : List Nat) : Nat → Option (List Nat × List Nat)
  | 0 => none
  | n + 1 =>
    if n + 1 < 9 then none
    else if (s.take (n + 1)).length = n + 1 ∧ (s.take (n + 1)).all isDigitDash ∧
        (s.drop (n + 1)).head? = some 64 then
      let dom := (s.drop (n + 2)).takeWhile isDomainB
      if dom ≠ [] then some (s.take (n + 1), dom) else tryPhoneLen s n
    else tryPhoneLen s n

/-- Match of `phoneRe` anchored at the start of `s`. -/
def tryPhoneAt (s : List Nat) : Option (List Nat × List Nat) := tryPhoneLen s 13

/-- Leftmost match of `phoneRe` in `s`
(`phoneRe.FindStringSubmatch`, groups 1 and 2). -/
def findPhoneMatch : List Nat → Option (List Nat × List Nat)
  | [] => none
  | b :: t =>
    match tryPhoneAt (b :: t) with
    | some m => some m
    | none => findPhoneMatch t

/-- `ExtractPhoneAndCarrier`. -/
def extractPhoneAndCarrier (fromAddr : List Nat) :
    Option (List Nat) × Option (List Nat) :=
  if trimSpace fromAddr = [] then (none, none)
  else
    match findPhoneMatch fromAddr with
    | none => (none, none)
    | some (p, d) =>
      let phone := normalizeDigits p
      match carrierLookup (toLowerL d) with
      | none => (some phone, none)
      | some c => (some phone, some c)

/-- `findNonce`: leftmost match of
`(?i)\[MAPAE:([0-9a-f]{64})\]` (modelled by `firstToken`, which implements
exactly the leftmost-first search for this pattern), guarded by the
`IsValidNonce` re-check; returns `[]` for "no nonce" like the Go `""`. -/
def findNonce (text : List Nat) : List Nat :=
  if trimSpace text = [] then []
  else
    match firstToken text with
    | some ds => if isValidNonce ds then ds else []
    | none => []

/-! ### Header/body splitting and header maps -/

/-- Split at the first occurrence of byte pattern `pat`. -/
def splitAtSeq (pat : List Nat) : List Nat → Option (List Nat × List Nat)
  | [] => if pat.isEmpty then some ([], []) else none
  | b :: t =>
    if hasPrefixL (b :: t) pat then some ([], (b :: t).drop pat.length)
    else (splitAtSeq pat t).map (fun p => (b :: p.1, p.2))

/-- `SplitHeaderBody`: split on the first `\r\n\r\n`, else the first `\n\n`,
else all-header. -/
def splitHeaderBody (raw : List Nat) : List Nat × List Nat :=
  match splitAtSeq [13, 10, 13, 10] raw with
  | some p => p
  | none =>
    match splitAtSeq [10, 10] raw with
    | some p => p
    | none => (raw, [])

/-- Header maps (models of `map[string]string` plus insertion order, which
never influences lookups). -/
def Hdrs := List (List Nat × List Nat)

def hdrGet (hs : Hdrs) (k : List Nat) : Option (List Nat) :=
  match hs with
  | [] => none
  | (k', v) :: t => if k' = k then some v else hdrGet t k

def hdrGetD (hs : Hdrs) (k : List Nat) : List Nat := (hdrGet hs k).getD []

def hdrSet (hs : Hdrs) (k v : List Nat) : Hdrs :=
  match hs with
  | [] => [(k, v)]
  | (k', v') :: t => if k' = k then (k', v) :: t else (k', v') :: hdrSet t k v

/-- `parseHeaders`' loop over `\n`-split lines with the `lastKey` register. -/
def parseHeadersLoop : List (List Nat) → Hdrs → List Nat → Hdrs
  | [], hs, _ => hs
  | line :: rest, hs, lastKey =>
    let line' := trimRightWhile (· == 13) line
    if trimSpace line' = [] then hs
    else if line'.head? = some 32 ∨ line'.head? = some 9 then
      let hs' :=
        if lastKey ≠ [] then
          hdrSet hs lastKey (trimSpace (hdrGetD hs lastKey ++ [32] ++ trimSpace line'))
        else hs
      parseHeadersLoop rest hs' lastKey
    else
      match splitN2 58 line' with
      | none => parseHeadersLoop rest hs lastKey
      | some (p0, p1) =>
        let key := toLowerL (trimSpace p0)
        let value := trimSpace p1
        let hs' :=
          match hdrGet hs key with
          | some existing => hdrSet hs key (existing ++ strB ", " ++ value)
          | none => hdrSet hs key value
        parseHeadersLoop rest hs' key

/-- `parseHeaders`. -/
def parseHeaders (raw : List Nat) : Hdrs :=
  parseHeadersLoop (splitOnB 10 raw) [] []

/-- `ExtractHeaderFromRaw`'s loop: tolerant `From` recovery. -/
def extractFromLoop : List (List Nat) → List Nat → List Nat → List Nat
  | [], name, val => if eqFold name (strB "from") then trimSpace val else []
  | line :: rest, name, val =>
    let line' := trimRightWhile (· == 13) line
    if trimSpace line' = [] then
      (if eqFold name (strB "from") then trimSpace val else [])
    else if line'.head? = some 32 ∨ line'.head? = some 9 then
      extractFromLoop rest name
        (if name ≠ [] then val ++ [32] ++ trimSpace line' else val)
    else if eqFold name (strB "from") then trimSpace val
    else
      match splitN2 58 line' with
      | some (p0, p1) => extractFromLoop rest (trimSpace p0) (trimSpace p1)
      | none => extractFromLoop rest [] []

/-- `ExtractHeaderFromRaw`. -/
def extractHeaderFromRaw (raw : List Nat) : List Nat :=
  extractFromLoop (splitOnB 10 (decodeASCII raw)) [] []

/-! ### Transfer decodings (models of `encoding/base64` and
`mime/quotedprintable`) -/

/-- Value of one standard-alphabet base64 character. -/
def b64Val (b : Nat) : Option Nat :=
  if 65 ≤ b ∧ b ≤ 90 then some (b - 65)
  else if 97 ≤ b ∧ b ≤ 122 then some (b - 97 + 26)
  else if 48 ≤ b ∧ b ≤ 57 then some (b - 48 + 52)
  else if b = 43 then some 62
  else if b = 47 then some 63
  else none

/-- `base64.StdEncoding.DecodeString` (padded; length must be a multiple of
four; Go's default decoder ignores non-zero trailing bits). -/
def b64DecStd : List Nat → Option (List Nat)
  | [] => some []
  | c1 :: c2 :: c3 :: c4 :: rest =>
    match b64Val c1, b64Val c2 with
    | some v1, some v2 =>
      if c3 = 61 then
        if c4 = 61 ∧ rest = [] then some [v1 * 4 + v2 / 16] else none
      else
        match b64Val c3 with
        | some v3 =>
          if c4 = 61 then
            if rest = [] then some [v1 * 4 + v2 / 16, v2 % 16 * 16 + v3 / 4]
            else none
          else
            match b64Val c4 with
            | some v4 =>
              (b64DecStd rest).map
                (fun t => (v1 * 4 + v2 / 16) :: (v2 % 16 * 16 + v3 / 4) ::
                  (v3 % 4 * 64 + v4) :: t)
            | none => none
        | none => none
    | _, _ => none
  | _ => none

/-- `base64.RawStdEncoding.DecodeString` (unpadded). -/
def b64DecRaw : List Nat → Option (List Nat)
  | [] => some []
  | [_] => none
  | [c1, c2] =>
    match b64Val c1, b64Val c2 with
    | some v1, some v2 => some [v1 * 4 + v2 / 16]
    | _, _ => none
  | [c1, c2, c3] =>
    match b64Val c1, b64Val c2, b64Val c3 with
    | some v1, some v2, some v3 => some [v1 * 4 + v2 / 16, v2 % 16 * 16 + v3 / 4]
    | _, _, _ => none
  | c1 :: c2 :: c3 :: c4 :: rest =>
    match b64Val c1, b64Val c2, b64Val c3, b64Val c4 with
    | some v1, some v2, some v3, some v4 =>
      (b64DecRaw rest).map
        (fun t => (v1 * 4 + v2 / 16) :: (v2 % 16 * 16 + v3 / 4) ::
          (v3 % 4 * 64 + v4) :: t)
    | _, _, _, _ => none

/-- `decodeBase64`: strip whitespace, try padded then raw decoding; `[]`
plays the role of Go's `nil` (every caller only tests emptiness). -/
def decodeBase64 (body : List Nat) : List Nat :=
  let cleaned := body.filter (fun b => !(b == 13 || b == 10 || b == 9 || b == 32))
  if cleaned = [] then []
  else
    match b64DecStd cleaned with
    | some d => d
    | none =>
      match b64DecRaw cleaned with
      | some d => d
      | none => []

/-- Split a byte list into lines, each including its terminating `\n`
(the final line may be unterminated); models `readLineBytes` iteration. -/
def splitAfterNLAux : List Nat → List Nat → List (List Nat)
  | [], acc => if acc.isEmpty then [] else [acc.reverse]
  | b :: t, acc =>
    if b = 10 then (acc.reverse ++ [10]) :: splitAfterNLAux t []
    else splitAfterNLAux t (b :: acc)

def splitAfterNL (l : List Nat) : List (List Nat) := splitAfterNLAux l []

/-- Decode quoted-printable escapes inside one line body (terminator
removed); returns the decoded bytes and whether the line ended in a soft
break (`=` before the line break); `none` on invalid escapes. -/
def qpDecodeLine : List Nat → Option (List Nat × Bool)
  | [] => some ([], false)
  | 61 :: rest =>
    match rest with
    | [] => some ([], true)
    | [_] => none
    | a :: b :: r =>
      match fromHexNibble a, fromHexNibble b with
      | some x, some y =>
        (qpDecodeLine r).map (fun p => ((x * 16 + y) :: p.1, p.2))
      | _, _ => none
  | b :: r => (qpDecodeLine r).map (fun p => (b :: p.1, p.2))

/-- Model of the `mime/quotedprintable` reader over whole inputs: per line,
trailing whitespace before the line break is dropped, `=XX` escapes are
decoded, `=` immediately before the line break is a soft break (the break
is suppressed), and invalid escapes (including `=` at end of input) are
errors. -/
def qpDecode : List (List Nat) → Option (List Nat)
  | [] => some []
  | line :: rest =>
    let term : List Nat :=
      if line.getLast? = some 10 then
        if (line.dropLast).getLast? = some 13 then [13, 10] else [10]
      else []
    let content := line.take (line.length - term.length)
    let content' := if term ≠ [] then trimRightWhile (fun b => b == 32 || b == 9) content
      else content
    match qpDecodeLine content' with
    | none => none
    | some (dec, soft) =>
      if soft ∧ term = [] then none
      else (qpDecode rest).map (fun t => dec ++ (if soft then [] else term) ++ t)

/-- `decodeQuotedPrintable`: `[]` models Go's `nil` result on error (all
callers only test emptiness). -/
def decodeQuotedPrintable (body : List Nat) : List Nat :=
  match qpDecode (splitAfterNL body) with
  | some d => d
  | none => []

/-- `decodeTransfer`. -/
def decodeTransfer (body encoding : List Nat) : List Nat :=
  let enc := toLowerL (trimSpace encoding)
  if enc = strB "base64" then
    let d := decodeBase64 body
    if d ≠ [] then d else body
  else if enc = strB "quoted-printable" then
    let d := decodeQuotedPrintable body
    if d ≠ [] then d else body
  else body

/-- `parseContentType`. -/
def parseContentType (value : List Nat) : List Nat × Hdrs :=
  let v := trimSpace value
  if v = [] then ([], [])
  else
    match splitOnB 59 v with
    | [] => ([], [])
    | p0 :: rest =>
      let mimeType := toLowerL (trimSpace p0)
      let params := rest.foldl (fun acc part =>
        let part' := trimSpace part
        if part' = [] then acc
        else
          match splitN2 61 part' with
          | some (k, val) =>
            let key := toLowerL (trimSpace k)
            let v' := trimSpace val
            let v'' := trimRightWhile (· == 34) (v'.dropWhile (· == 34))
            hdrSet acc key v''
          | none => acc) []
      (mimeType, params)

/-- `splitMultipart`'s line loop. -/
def smLoop (delim : List Nat) :
    List (List Nat) → List (List Nat) → List Nat → Bool → List (List Nat)
  | [], parts, current, inPart =>
    if inPart ∧ current ≠ [] then parts ++ [current] else parts
  | line :: rest, parts, current, inPart =>
    let trimmed := trimRightWhile (fun b => b == 13 || b == 10) line
    if hasPrefixL trimmed delim then
      let parts' := if inPart ∧ current ≠ [] then parts ++ [current] else parts
      if hasPrefixL trimmed (delim ++ [45, 45]) then parts'
      else smLoop delim rest parts' [] true
    else
      smLoop delim rest parts (if inPart then current ++ line else current) inPart

/-- `splitMultipart`. -/
def splitMultipart (body boundary : List Nat) : List (List Nat) :=
  smLoop ([45, 45] ++ boundary) (splitAfterNL body) [] [] false

/-- `extractTextFromBody`.  The Go code recurses with `depth + 1` and stops
when `depth > 5`; we count down with `fuel = 6 - depth` (initial call:
fuel 6). -/
def extractTextFromBody : Nat → List Nat → Hdrs → List Nat
  | 0, body, _ => decodeASCII body
  | fuel + 1, body, headers =>
    let ct := parseContentType (hdrGetD headers (strB "content-type"))
    if hasPrefixL ct.1 (strB "multipart/") then
      let boundary := hdrGetD ct.2 (strB "boundary")
      if boundary = [] then []
      else
        let parts := splitMultipart body boundary
        let texts := (parts.map (fun part =>
          extractTextFromBody fuel (splitHeaderBody part).2
            (parseHeaders (splitHeaderBody part).1))).filter
          (fun t => trimSpace t ≠ [])
        List.intercalate [10] texts
    else
      let decoded := decodeTransfer body
        (hdrGetD headers (strB "content-transfer-encoding"))
      if hasPrefixL ct.1 (strB "text/") ∨ ct.1 = [] then decodeASCII decoded
      else []

/-- `ParseBody`. -/
def parseBody (raw : List Nat) : List Nat × Hdrs :=
  let hb := splitHeaderBody raw
  let headers := parseHeaders hb.1
  let bodyText := extractTextFromBody 6 hb.2 headers
  ((if bodyText = [] then decodeASCII raw else bodyText), headers)

/-- `FindNonceWithFallback`. -/
def findNonceWithFallback (bodyText body : List Nat) : List Nat :=
  let n1 := findNonce bodyText
  if n1 ≠ [] then n1
  else
    let n2 := findNonce (decodeASCII body)
    if n2 ≠ [] then n2
    else
      let d3 := decodeQuotedPrintable body
      let n3 := if d3.length > 0 then findNonce (decodeASCII d3) else []
      if n3 ≠ [] then n3
      else
        let d4 := decodeBase64 body
        let n4 := if d4.length > 0 then findNonce (decodeASCII d4) else []
        n4

/-! ## The streaming scanner pipeline (`stream.go`)

`StreamExtractHeaderFromAndNonce` reads the MIME header with
`textproto.ReadMIMEHeader`, then walks the MIME tree with `scanEntity`
feeding every decoded leaf to the nonce scanner.  The Go standard library
collaborators (`textproto`, `mime`, `mime/multipart`, the streaming
`base64`/`quotedprintable` decoders) are modelled below; all errors are
collapsed into `none` (the size limit plays no role here and is treated
separately for C4). -/

/-- One header key lookup on textproto-style headers (keys stored
lower-cased; `Get` is case-insensitive and defaults to `""`). -/
def tpGetD (hs : List (List Nat × List Nat)) (k : List Nat) : List Nat :=
  match hs with
  | [] => []
  | (k', v) :: t => if k' = toLowerL k then v else tpGetD t k

/-- `textproto.ReadMIMEHeader` loop: read physical lines up to the blank
line, joining continuations with a single space; malformed headers (no
colon, continuation first, missing terminator) are errors. -/
def tpLoopF : Nat → List Nat → List (List Nat × List Nat) →
    Option (List (List Nat × List Nat) × List Nat)
  | 0, _, _ => none
  | fuel + 1, l, acc =>
    match splitN2 10 l with
    | none => none
    | some (line, rest) =>
      let content := if line.getLast? = some 13 then line.dropLast else line
      if content = [] then some (acc.reverse, rest)
      else if content.head? = some 32 ∨ content.head? = some 9 then
        match acc with
        | [] => none
        | (k, v) :: accT =>
          tpLoopF fuel rest ((k, v ++ [32] ++ trimSpace content) :: accT)
      else
        match splitN2 58 content with
        | none => none
        | some (k, v) =>
          if k = [] ∨ k.getLast? = some 32 then none
          else
            tpLoopF fuel rest
              ((toLowerL k, v.dropWhile (fun b => b == 32 || b == 9)) :: acc)

/-- `textproto.ReadMIMEHeader`: returns the header map and the remaining
(body) bytes. -/
def textprotoHeaders (l : List Nat) :
    Option (List (List Nat × List Nat) × List Nat) :=
  tpLoopF (l.length + 1) l []

/-- RFC 1521 `tspecials` (used by the media-type token check). -/
def isTsSpecial (b : Nat) : Bool :=
  b == 40 || b == 41 || b == 60 || b == 62 || b == 64 || b == 44 || b == 59 ||
  b == 58 || b == 92 || b == 34 || b == 47 || b == 91 || b == 93 || b == 63 ||
  b == 61

def isMediaTokenB (b : Nat) : Bool := 32 < b && b < 127 && !isTsSpecial b

/-- Parameter section of `mime.ParseMediaType`. -/
def pmtParams : List (List Nat) → Hdrs → Option Hdrs
  | [], acc => some acc
  | part :: rest, acc =>
    let part' := trimSpace part
    if part' = [] then pmtParams rest acc
    else
      match splitN2 61 part' with
      | none => none
      | some (k, val) =>
        let key := toLowerL (trimSpace k)
        let val' := trimSpace val
        match val' with
        | 34 :: vr =>
          match splitN2 34 vr with
          | some (q, _) => pmtParams rest (hdrSet acc key q)
          | none => none
        | _ => pmtParams rest (hdrSet acc key val')

/-- `mime.ParseMediaType` (model): lower-cased, trimmed base type that must
be a token or `token/token`; key=value parameters, optionally quoted. -/
def parseMediaTypeModel (v : List Nat) : Option (List Nat × Hdrs) :=
  match splitOnB 59 v with
  | [] => none
  | p0 :: rest =>
    let base := toLowerL (trimSpace p0)
    let okBase : Bool :=
      match splitN2 47 base with
      | some (maj, mnr) =>
        !maj.isEmpty && !mnr.isEmpty && maj.all isMediaTokenB && mnr.all isMediaTokenB
      | none => !base.isEmpty && base.all isMediaTokenB
    if okBase then (pmtParams rest []).map (fun ps => (base, ps))
    else none

/-- Drop the line break that belongs to the following boundary line. -/
def stripTrailCRLF (l : List Nat) : List Nat :=
  if l.getLast? = some 10 then
    if l.dropLast.getLast? = some 13 then l.dropLast.dropLast else l.dropLast
  else l

/-- A boundary-line comparison: the line, minus its break and trailing
linear whitespace. -/
def mpLineBody (line : List Nat) : List Nat :=
  trimRightWhile (fun b => b == 32 || b == 9)
    (trimRightWhile (fun b => b == 13 || b == 10) line)

/-- Raw byte ranges of the parts after the first boundary line
(`mime/multipart`); `none` when the terminating boundary is missing. -/
def mpParts0 (dash : List Nat) : List (List Nat) → List Nat →
    Option (List (List Nat))
  | [], _ => none
  | line :: rest, cur =>
    if mpLineBody line = dash ++ [45, 45] then some [stripTrailCRLF cur]
    else if mpLineBody line = dash then
      (mpParts0 dash rest []).map (stripTrailCRLF cur :: ·)
    else mpParts0 dash rest (cur ++ line)

/-- Skip the preamble up to the first boundary line. -/
def mpPreamble (dash : List Nat) : List (List Nat) → Option (List (List Nat))
  | [] => none
  | line :: rest =>
    if mpLineBody line = dash then mpParts0 dash rest []
    else if mpLineBody line = dash ++ [45, 45] then some []
    else mpPreamble dash rest

/-- `multipart.Reader` (model): split the body at boundary lines and parse
each part's MIME header. -/
def multipartParts (body boundary : List Nat) :
    Option (List ((List (List Nat × List Nat)) × List Nat)) :=
  (mpPreamble ([45, 45] ++ boundary) (splitAfterNL body)).bind
    (fun rawParts => rawParts.mapM textprotoHeaders)

/-- Streaming `base64` decoder (model of `base64.NewDecoder` reads): emits
the decoded prefix up to the first bad quantum or padding, errors
swallowed by the caller. -/
def b64StreamDec : List Nat → List Nat
  | c1 :: c2 :: c3 :: c4 :: rest =>
    match b64Val c1, b64Val c2 with
    | some v1, some v2 =>
      if c3 = 61 then [v1 * 4 + v2 / 16]
      else
        match b64Val c3 with
        | some v3 =>
          if c4 = 61 then [v1 * 4 + v2 / 16, v2 % 16 * 16 + v3 / 4]
          else
            match b64Val c4 with
            | some v4 =>
              (v1 * 4 + v2 / 16) :: (v2 % 16 * 16 + v3 / 4) ::
                (v3 % 4 * 64 + v4) :: b64StreamDec rest
            | none => []
        | none => []
    | _, _ => []
  | _ => []

/-- Streaming quoted-printable decoder (model of `quotedprintable.Reader`
reads): decoded prefix up to the first invalid line. -/
def qpStreamLines : List (List Nat) → List Nat
  | [] => []
  | line :: rest =>
    let term : List Nat :=
      if line.getLast? = some 10 then
        if line.dropLast.getLast? = some 13 then [13, 10] else [10]
      else []
    let content := line.take (line.length - term.length)
    let content' :=
      if term ≠ [] then trimRightWhile (fun b => b == 32 || b == 9) content
      else content
    match qpDecodeLine content' with
    | none => []
    | some (dec, soft) =>
      if soft ∧ term = [] then dec
      else dec ++ (if soft then [] else term) ++ qpStreamLines rest

/-- `scanLeafBody`: dispatch on Content-Transfer-Encoding, feed the decoded
bytes to the scanner; decoding failures leave the partially-scanned state
(the Go code drains and continues). -/
def scanLeafBody (body cte : List Nat) (sc : ScanSt) : ScanSt :=
  if sc.found.isSome then sc
  else
    let cte' := toLowerL (trimSpace cte)
    if cte' = strB "base64" then
      scanList sc (b64StreamDec
        (body.filter (fun b => !(b == 32 || b == 9 || b == 13 || b == 10))))
    else if cte' = strB "quoted-printable" then
      scanList sc (qpStreamLines (splitAfterNL body))
    else scanList sc body

/-- `scanEntity` (fuel = `6 - depth`; the Go guard `depth > 5` discards the
entity). -/
def scanEntity : Nat → List Nat → List (List Nat × List Nat) → ScanSt →
    Option ScanSt
  | 0, _, _, sc => some sc
  | fuel + 1, body, hdr, sc =>
    let ct := tpGetD hdr (strB "content-type")
    let cte := tpGetD hdr (strB "content-transfer-encoding")
    let mt : List Nat × Hdrs :=
      match parseMediaTypeModel ct with
      | some m => m
      | none => (toLowerL (trimSpace ((splitOnB 59 ct).headD [])), [])
    if hasPrefixL (toLowerL mt.1) (strB "multipart/") ∧
        hdrGetD mt.2 (strB "boundary") ≠ [] then
      match multipartParts body (hdrGetD mt.2 (strB "boundary")) with
      | none => none
      | some parts => parts.foldlM (fun s p => scanEntity fuel p.2 p.1 s) sc
    else some (scanLeafBody body cte sc)

/-- `StreamExtractHeaderFromAndNonce` with no size limit: header `From`
value and found nonce (`[]` when none); `none` on parse errors. -/
def streamExtractHeaderFromAndNonce (raw : List Nat) :
    Option (List Nat × List Nat) :=
  match textprotoHeaders raw with
  | none => none
  | some (hdrs, body) =>
    let headerFrom := trimSpace (tpGetD hdrs (strB "from"))
    match scanEntity 6 body hdrs initScan with
    | none => none
    | some sc => some (headerFrom, sc.found.getD [])

/-! ## Size limiting (`countingLimitReader`, `readData`) and the SMTP
session (`session.Data`, `Server.handleData`) -/

inductive RErr
  | eof
  | tooLarge
deriving DecidableEq, Repr

/-- `countingLimitReader` state over a list-backed source. -/
structure CLR where
  src : List Nat
  limit : Int
  n : Int
deriving DecidableEq, Repr

/-- Effective read capacity of one `countingLimitReader.Read` call
(`p = p[:remain]` truncation). -/
def clrCap (limit n : Int) (k : Nat) : Nat :=
  if 0 < limit then min k (limit + 1 - n).toNat else k

/-- One `Read` with a caller buffer of `k` bytes (an empty source models
the underlying reader's `(0, io.EOF)`). -/
def clrRead (c : CLR) (k : Nat) : List Nat × Option RErr × CLR :=
  if 0 < c.limit ∧ c.limit + 1 - c.n ≤ 0 then ([], some .tooLarge, c)
  else if c.src = [] then ([], some .eof, c)
  else if 0 < c.limit ∧
      c.limit < c.n + ((c.src.take (clrCap c.limit c.n k)).length : Int) then
    (c.src.take (clrCap c.limit c.n k), some .tooLarge,
      ⟨c.src.drop (clrCap c.limit c.n k), c.limit,
        c.n + ((c.src.take (clrCap c.limit c.n k)).length : Int)⟩)
  else
    (c.src.take (clrCap c.limit c.n k), none,
      ⟨c.src.drop (clrCap c.limit c.n k), c.limit,
        c.n + ((c.src.take (clrCap c.limit c.n k)).length : Int)⟩)

/-- Repeatedly `Read` with a fixed buffer size until an error surfaces. -/
def clrDrive : Nat → CLR → Nat → Option RErr
  | 0, _, _ => none
  | fuel + 1, c, k =>
    match clrRead c k with
    | (_, some er, _) => some er
    | (_, none, c') => clrDrive fuel c' k

/-- `readData`: read up to `limit + 1` bytes; flag overflow. -/
def readData (src : List Nat) (limit : Int) : List Nat × Bool :=
  if limit ≤ 0 then (src, false)
  else
    let data := src.take (limit.toNat + 1)
    if limit < (data.length : Int) then (data.take limit.toNat, true)
    else (data, false)

/-- The SPF result type of the `blitiri.com.ar/go/spf` collaborator; `unset`
is the Go zero value `spf.Result("")` used when a check is skipped. -/
inductive SPFRes
  | unset
  | spfNone
  | neutral
  | pass
  | fail
  | softfail
  | temperror
  | permerror
deriving DecidableEq, Repr

structure Reply where
  code : Nat
  msg : String
deriving DecidableEq, Repr

/-- Store interactions performed by `handleData`, in order. -/
inductive Effect
  | takeNonce (key : List Nat)
  | storeVerified (authID : String) (phone carrier : Option (List Nat))
deriving DecidableEq, Repr

/-- Outcome of `auth.ConsumeAuthIDByNonce` (a store `Take`). -/
inductive TakeOutcome
  | err
  | miss
  | hit (authID : String)
deriving DecidableEq, Repr

/-- `sanitizeSender`; `parseAddr` is the `net/mail.ParseAddress`
collaborator (`none` = parse error, `some a` = `Address` field). -/
def sanitizeSender (parseAddr : List Nat → Option (List Nat))
    (value : List Nat) : List Nat :=
  let trimmed := trimSpace value
  if trimmed = [] ∨ trimmed = strB "<>" then []
  else
    match parseAddr trimmed with
    | some addr => if addr ≠ [] then addr else trimmed
    | none => trimmed

/-- The header `From` used by `handleData`: `parseHeaders` value, falling
back to `ExtractHeaderFromRaw`. -/
def headerFromOf (raw : List Nat) : List Nat :=
  let hf := hdrGetD (parseBody raw).2 (strB "from")
  if hf = [] then extractHeaderFromRaw raw else hf

/-- The envelope-sender SPF result computed by `handleData` when the peer
IP is known (`unset` when the check is skipped). -/
def envSPFResult (spf : List Nat → SPFRes)
    (parseAddr : List Nat → Option (List Nat)) (mailFrom : List Nat) : SPFRes :=
  if mailFrom ≠ [] ∧ sanitizeSender parseAddr mailFrom ≠ [] then
    spf (sanitizeSender parseAddr mailFrom)
  else .unset

/-- The header-From SPF result computed by `handleData` when the peer IP is
known. -/
def hdrSPFResult (spf : List Nat → SPFRes)
    (parseAddr : List Nat → Option (List Nat)) (headerFrom : List Nat) : SPFRes :=
  if headerFrom ≠ [] ∧ sanitizeSender parseAddr headerFrom ≠ [] then
    spf (sanitizeSender parseAddr headerFrom)
  else .unset

/-- `Server.handleData` with the SPF resolver, address parser and store
modelled as oracles; returns the SMTP error reply (`none` = accept) and
the trace of store interactions. -/
def handleData (spf : List Nat → SPFRes)
    (parseAddr : List Nat → Option (List Nat))
    (takeRes : List Nat → TakeOutcome) (storeOK : Bool)
    (peerPresent : Bool) (mailFrom raw : List Nat) : Option Reply × List Effect :=
  let bodyText := (parseBody raw).1
  let headerFrom := headerFromOf raw
  let bodyBytes := (splitHeaderBody raw).2
  let envPC := extractPhoneAndCarrier mailFrom
  let hdrPC := extractPhoneAndCarrier headerFrom
  let envResult := if peerPresent then envSPFResult spf parseAddr mailFrom else .unset
  let hdrResult := if peerPresent then hdrSPFResult spf parseAddr headerFrom else .unset
  if peerPresent ∧ ¬(envResult = .pass ∨ hdrResult = .pass) then
    if envResult = .temperror ∨ hdrResult = .temperror then
      (some ⟨451, "SPF temperror"⟩, [])
    else (some ⟨550, "SPF fail"⟩, [])
  else
    let pc : Option (List Nat) × Option (List Nat) :=
      if envPC.2.isSome ∧ (¬peerPresent ∨ envResult = .pass) then envPC
      else if hdrPC.2.isSome ∧ (¬peerPresent ∨ hdrResult = .pass) then hdrPC
      else (none, none)
    if pc.2.isNone then (some ⟨550, "Invalid carrier domain"⟩, [])
    else
      let nonce := findNonceWithFallback bodyText bodyBytes
      if nonce = [] then (some ⟨550, "Invalid nonce"⟩, [])
      else
        let tk : Effect := .takeNonce (strB "nonce:" ++ nonce)
        match takeRes nonce with
        | .err => (some ⟨451, "Temporary server error"⟩, [tk])
        | .miss => (some ⟨550, "Invalid nonce"⟩, [tk])
        | .hit authID =>
          if storeOK then (none, [tk, .storeVerified authID pc.1 pc.2])
          else (some ⟨451, "Temporary server error"⟩,
            [tk, .storeVerified authID pc.1 pc.2])

/-- `session.Data`: size check, then `handleData`. -/
def sessionData (spf : List Nat → SPFRes)
    (parseAddr : List Nat → Option (List Nat))
    (takeRes : List Nat → TakeOutcome) (storeOK : Bool)
    (peerPresent : Bool) (mailFrom src : List Nat) (limit : Int) :
    Option Reply × List Effect :=
  let rd := readData src limit
  if rd.2 then (some ⟨552, "Message size exceeds limit"⟩, [])
  else handleData spf parseAddr takeRes storeOK peerPresent mailFrom rd.1

/-! ## The verification service (`internal/auth/service.go`)

Service-layer strings are Lean `String`s.  `encoding/json.Unmarshal` into
`AuthCheckResponse` is a collaborator: theorems quantify over an arbitrary
decoder where possible, and `decodeAuthJSON` below is an executable model
of it on the flat string-field objects this service itself writes
(anything else is a parse error, matching `Unmarshal` on the concrete
payloads used in witnesses). -/

/-- `AuthCheckResponse` (all fields Go strings; zero value `""`). -/
structure AuthResp where
  status : String
  phone : String
  carrier : String
  timestamp : String
  token : String
deriving DecidableEq, Repr

def AuthResp.waiting : AuthResp := ⟨"waiting", "", "", "", ""⟩

def AuthResp.expired : AuthResp := ⟨"expired", "", "", "", ""⟩

inductive AuthErr
  | invalidAuthID
  | jwksUnavailable
deriving DecidableEq, Repr

instance {ε α : Type} [DecidableEq ε] [DecidableEq α] : DecidableEq (Except ε α) := fun
  | .error a, .error b =>
    if h : a = b then isTrue (by rw [h])
    else isFalse (by intro hh; cases hh; exact h rfl)
  | .error _, .ok _ => isFalse (by intro h; cases h)
  | .ok _, .error _ => isFalse (by intro h; cases h)
  | .ok a, .ok b =>
    if h : a = b then isTrue (by rw [h])
    else isFalse (by intro hh; cases hh; exact h rfl)

def isHexChar (c : Char) : Bool :=
  ('0' ≤ c && c ≤ '9') || ('a' ≤ c && c ≤ 'f') || ('A' ≤ c && c ≤ 'F')

/-- `authIDRe`: `^[0-9a-fA-F]{32}$`. -/
def authIDMatch (id : String) : Bool :=
  id.length == 32 && id.data.all isHexChar

def authKey (id : String) : String := "auth:" ++ id

/-- `CheckAuth`: result plus the list of store keys read (empty when the
format check rejects, witnessing "rejecting before any store access"). -/
def checkAuth (decode : String → Option AuthResp) (st : Store) (now : Int)
    (id : String) : Except AuthErr AuthResp × List String :=
  if ¬ authIDMatch id then (.error .invalidAuthID, [])
  else
    let g := (memGet st now (authKey id)).1
    if ¬ g.2 then (.ok AuthResp.expired, [authKey id])
    else
      match decode g.1 with
      | none => (.ok AuthResp.waiting, [authKey id])
      | some r =>
        if r.status = "verified" then (.ok r, [authKey id])
        else (.ok AuthResp.waiting, [authKey id])

/-- `VerifiedPayload`. -/
structure VerifiedPayload where
  status : String
  phone : String
  carrier : String
  timestamp : String
deriving DecidableEq, Repr

/-- `"s"` (the payload fields this service writes never need JSON
escaping). -/
def jsonStr (s : String) : String := "\"" ++ s ++ "\""

/-- `json.Marshal` of `VerifiedPayload` (field order as declared;
`omitempty` on phone and carrier). -/
def marshalVerified (p : VerifiedPayload) : String :=
  "\x7b" ++ "\"status\":" ++ jsonStr p.status ++
    (if p.phone = "" then "" else ",\"phone\":" ++ jsonStr p.phone) ++
    (if p.carrier = "" then "" else ",\"carrier\":" ++ jsonStr p.carrier) ++
    ",\"timestamp\":" ++ jsonStr p.timestamp ++ "\x7d"

/-- `StoreVerified`: marshal a fresh verified payload (empty strings for
`nil` phone/carrier) and overwrite `auth:<id>` with the verified TTL. -/
def storeVerified (st : Store) (now : Int) (ttl : Int) (id : String)
    (phone carrier : Option String) (ts : String) : Option Store :=
  setEx st now (authKey id)
    (marshalVerified ⟨"verified", phone.getD "", carrier.getD "", ts⟩) ttl

/-- `CheckSigned`: `signerPresent` models whether a JWT signer was
configured; `sign` is the signing collaborator. -/
def checkSigned (decode : String → Option AuthResp) (signerPresent : Bool)
    (sign : String → String → String → String → String)
    (st : Store) (now : Int) (id : String) : Except AuthErr AuthResp :=
  if ¬ authIDMatch id then .error .invalidAuthID
  else
    let g := (memGet st now (authKey id)).1
    if ¬ g.2 then .ok AuthResp.expired
    else
      match decode g.1 with
      | none => .ok AuthResp.waiting
      | some r =>
        if r.status ≠ "verified" then .ok AuthResp.waiting
        else if ¬ signerPresent then .error .jwksUnavailable
        else if r.phone = "" then .ok AuthResp.waiting
        else .ok { r with token := sign id r.phone r.carrier id }

/-- `JWKS` (`doc` is the signer's JWKS document). -/
def jwksOf (signerPresent : Bool) (doc : String) : Except AuthErr String :=
  if signerPresent then .ok doc else .error .jwksUnavailable

/-! ### An executable JSON decoder for the service's own payloads -/

def jStringAux : List Char → List Char → Option (String × List Char)
  | [], _ => none
  | c :: rest, acc =>
    if c = '"' then some (⟨acc.reverse⟩, rest)
    else if c = '\\' then none
    else jStringAux rest (c :: acc)

def parseJString : List Char → Option (String × List Char)
  | '"' :: r => jStringAux r []
  | _ => none

def setField (r : AuthResp) (k v : String) : AuthResp :=
  if k = "status" then { r with status := v }
  else if k = "phone" then { r with phone := v }
  else if k = "carrier" then { r with carrier := v }
  else if k = "timestamp" then { r with timestamp := v }
  else if k = "token" then { r with token := v }
  else r

def jFields : Nat → List Char → AuthResp → Option AuthResp
  | 0, _, _ => none
  | fuel + 1, cs, acc =>
    match parseJString cs with
    | none => none
    | some (k, rest) =>
      match rest with
      | ':' :: rest2 =>
        match parseJString rest2 with
        | none => none
        | some (v, rest3) =>
          match rest3 with
          | ',' :: rest4 => jFields fuel rest4 (setField acc k v)
          | ['}'] => some (setField acc k v)
          | _ => none
      | _ => none

/-- Model of `json.Unmarshal` into `AuthCheckResponse` for flat objects of
string fields without escapes (exactly the payloads this service writes);
everything else is a parse error. -/
def decodeAuthJSON (s : String) : Option AuthResp :=
  match s.data with
  | c :: r => if c = '{' then jFields (r.length + 1) r ⟨"", "", "", "", ""⟩ else none
  | [] => none

/-! ## `randomHex`/`InitAuth` identifiers and case sensitivity (C10) -/

/-- One lowercase hex digit (`encoding/hex` alphabet). -/
def hexDigitChar (m : Nat) : Char :=
  if m < 10 then Char.ofNat (48 + m) else Char.ofNat (87 + m)

/-- `hex.EncodeToString`: every auth_id issued by `InitAuth` is
`hexEncode` of 16 random bytes, hence 32 lowercase hex characters. -/
def hexEncode (bs : List Nat) : String :=
  ⟨bs.foldr (fun b acc => hexDigitChar (b / 16) :: hexDigitChar (b % 16) :: acc) []⟩

/-- ASCII upper-casing of one character. -/
def upperChar (c : Char) : Char :=
  if 97 ≤ c.toNat ∧ c.toNat ≤ 122 then Char.ofNat (c.toNat - 32) else c

/-- ASCII `strings.ToUpper`. -/
def upperStr (s : String) : String := ⟨s.data.map upperChar⟩

/-! ## Correctness of the phone/carrier extractor (C9) -/

/-- `s` contains a substring of 9–13 digits-and-dashes followed by `@` and
at least one domain character. -/
def ContainsPhonePat (s : List Nat) : Prop :=
  ∃ u p d r, s = u ++ p ++ 64 :: (d ++ r) ∧ p.all isDigitDash = true ∧
    9 ≤ p.length ∧ p.length ≤ 13 ∧ d ≠ [] ∧ d.all isDomainB = true

/-! ## Legacy fallback vs. streaming scanner (C3) -/

/-- A minimal well-formed message: one `From` header line, CRLF blank
line, then the body. -/
def simpleMsg (nF vF body : List Nat) : List Nat :=
  nF ++ 58 :: (vF ++ 13 :: 10 :: 13 :: 10 :: body)

/-- The C3 counterexample message: identity transfer encoding whose body
is the base64 text of a token (`[MAPAE:` ++ 64 × `d` ++ `]`). -/
def cexMsg : List Nat :=
  simpleMsg (strB "From") (strB " a@b")
    (strB "W01BUEFFOmRkZGRkZGRkZGRkZGRkZGRkZGRkZGRkZGRkZGRkZGRkZGRkZGRkZGRkZGRkZGRkZGRkZGRkZGRkZGRkZGRkZGRd")

/-- Well-formedness of a `simpleMsg`: printable colon-free name that
case-folds to `from`, printable value, ASCII body, non-blank From value. -/
def SimpleWF (nF vF body : List Nat) : Prop :=
  nF ≠ [] ∧ nF.all (fun b => 32 < b && b < 128 && b != 58) = true ∧
  toLowerL nF = strB "from" ∧
  vF.all (fun b => 32 ≤ b && b < 128) = true ∧
  body.all (fun b => b < 128) = true ∧
  trimSpace vF ≠ []

end Mapae

namespace Mapae

/-! ### Basic scanner lemmas -/

lemma scanByte_of_found {s : ScanSt} (h : s.found.isSome) (b : Nat) :
    scanByte s b = s := by
  rcases s with ⟨st, dg, fnd⟩
  cases fnd with
  | none => simp at h
  | some ds => rfl

lemma foldl_scanByte_found {s : ScanSt} (h : s.found.isSome) (l : List Nat) :
    l.foldl scanByte s = s := by
  induction l with
  | nil => rfl
  | cons b t ih => rw [List.foldl_cons, scanByte_of_found h, ih]

/-- The early-exit `Scan` loop computes the same state as a plain fold. -/
lemma scanList_eq_foldl (s : ScanSt) (l : List Nat) :
    scanList s l = l.foldl scanByte s := by
  induction l generalizing s with
  | nil => rfl
  | cons b t ih =>
    rw [scanList, List.foldl_cons]
    by_cases h : (scanByte s b).found.isSome
    · simp only [h, if_true]
      exact (foldl_scanByte_found h t).symm
    · simp only [h, if_false]
      exact ih _

/-! ### Byte-class facts -/

lemma isHexB_ne_close {b : Nat} (h : isHexB b = true) : (b == 93) = false := by
  simp only [isHexB, Bool.or_eq_true, Bool.and_eq_true, decide_eq_true_eq] at h
  simp only [beq_eq_false_iff_ne, ne_eq]
  omega

lemma isHexB_not_ws {b : Nat} (h : isHexB b = true) : isWsB b = false := by
  simp only [isHexB, Bool.or_eq_true, Bool.and_eq_true, decide_eq_true_eq] at h
  simp only [isWsB, Bool.or_eq_false_iff, beq_eq_false_iff_ne, ne_eq]
  omega

/-- From any not-yet-found state, the byte `[` puts the scanner in state 1. -/
lemma scanByte_open {s : ScanSt} (h : s.found = none) :
    ∃ d, scanByte s 91 = ⟨1, d, none⟩ := by
  rcases s with ⟨st, dg, fnd⟩
  cases fnd with
  | some ds => simp at h
  | none =>
    rcases st with _ | _ | _ | _ | _ | _ | _ | st7
    · exact ⟨dg, by simp [scanByte]⟩
    · exact ⟨dg, by simp [scanByte, isMB]⟩
    · exact ⟨[], by simp [scanByte, isAB, resetAndMaybeStart]⟩
    · exact ⟨[], by simp [scanByte, isPB, resetAndMaybeStart]⟩
    · exact ⟨[], by simp [scanByte, isAB, resetAndMaybeStart]⟩
    · exact ⟨[], by simp [scanByte, isEB, resetAndMaybeStart]⟩
    · exact ⟨[], by simp [scanByte, resetAndMaybeStart]⟩
    · exact ⟨[], by simp [scanByte, isWsB, isHexB, resetAndMaybeStart]⟩

/-- A run of hex digits accumulates in state 7 while at most 64 digits. -/
lemma foldl_hexRun :
    ∀ (ds d : List Nat), ds.all isHexB = true → d.length + ds.length ≤ 64 →
      List.foldl scanByte ⟨7, d, none⟩ ds = ⟨7, d ++ ds, none⟩ := by
  intro ds
  induction ds with
  | nil => intro d _ _; simp
  | cons b t ih =>
    intro d hall hlen
    simp only [List.all_cons, Bool.and_eq_true] at hall
    have hb : isHexB b = true := hall.1
    have h63 : ¬ (64 ≤ d.length) := by simp at hlen; omega
    rw [List.foldl_cons]
    have hstep : scanByte ⟨7, d, none⟩ b = ⟨7, d ++ [b], none⟩ := by
      simp [scanByte, isHexB_ne_close hb, isHexB_not_ws hb, hb, nonceHexLength, h63]
    rw [hstep, ih (d ++ [b]) hall.2 (by simp at hlen ⊢; omega)]
    simp

/-- Scanning a complete token from any not-yet-found state accepts with the
token's 64 hex digits. -/
lemma foldl_token {s : ScanSt} {c1 c2 c3 c4 c5 : Nat} {ds : List Nat}
    (h : s.found = none) (hl : LitsOK c1 c2 c3 c4 c5)
    (hhex : ds.all isHexB = true) (hlen : ds.length = 64) :
    List.foldl scanByte s (tokBytes c1 c2 c3 c4 c5 ds) = ⟨7, ds, some ds⟩ := by
  obtain ⟨hm, ha, hp, ha', he⟩ := hl
  obtain ⟨d, hopen⟩ := scanByte_open h
  rw [tokBytes, List.foldl_cons, hopen]
  have h1 : scanByte ⟨1, d, none⟩ c1 = ⟨2, d, none⟩ := by simp [scanByte, hm]
  have h2 : scanByte ⟨2, d, none⟩ c2 = ⟨3, d, none⟩ := by simp [scanByte, ha]
  have h3 : scanByte ⟨3, d, none⟩ c3 = ⟨4, d, none⟩ := by simp [scanByte, hp]
  have h4 : scanByte ⟨4, d, none⟩ c4 = ⟨5, d, none⟩ := by simp [scanByte, ha']
  have h5 : scanByte ⟨5, d, none⟩ c5 = ⟨6, d, none⟩ := by simp [scanByte, he]
  have h6 : scanByte ⟨6, d, none⟩ 58 = ⟨7, [], none⟩ := by simp [scanByte]
  rw [List.foldl_cons, h1, List.foldl_cons, h2, List.foldl_cons, h3,
    List.foldl_cons, h4, List.foldl_cons, h5, List.foldl_cons, h6]
  rw [show ds ++ [93] = ds ++ [93] from rfl, List.foldl_append,
    foldl_hexRun ds [] hhex (by simp [hlen])]
  simp [scanByte, nonceHexLength, hlen]

lemma justified_reset (l : List Nat) (dg : List Nat) :
    Justified l ⟨0, dg, none⟩ := by trivial

lemma justified_start (l : List Nat) (dg : List Nat) :
    Justified (l ++ [91]) ⟨1, dg, none⟩ := ⟨l, rfl⟩

/-- Reset-or-restart preserves the invariant for any appended byte. -/
lemma justified_rms (l : List Nat) (s : ScanSt) (b : Nat) (h : s.found = none) :
    Justified (l ++ [b]) (resetAndMaybeStart s b) := by
  rcases s with ⟨st, dg, fnd⟩
  cases fnd with
  | some ds => simp at h
  | none =>
    rw [resetAndMaybeStart]
    by_cases hb : b = 91
    · subst hb; simp only [beq_self_eq_true, if_true]
      exact justified_start l dg
    · simp only [show (b == 91) = false by simpa using hb, if_false]
      exact justified_reset _ _

/-- One-step preservation of the invariant. -/
lemma justified_step {l : List Nat} {s : ScanSt} (h : Justified l s) (b : Nat) :
    Justified (l ++ [b]) (scanByte s b) := by
  rcases s with ⟨st, dg, fnd⟩
  cases fnd with
  | some ds =>
    rw [scanByte]
    obtain ⟨u, c1, c2, c3, c4, c5, v, hl, hhex, hlen, he⟩ := h
    exact ⟨u, c1, c2, c3, c4, c5, v ++ [b], hl, hhex, hlen, by
      rw [he]; simp⟩
  | none =>
    rcases st with _ | _ | _ | _ | _ | _ | _ | st7
    · -- state 0
      rw [scanByte]
      by_cases hb : b = 91
      · subst hb; simp only [beq_self_eq_true, if_true]
        exact justified_start l dg
      · simp only [show (b == 91) = false by simpa using hb, if_false]
        exact justified_reset _ _
    · -- state 1
      obtain ⟨u, hu⟩ := h
      rw [scanByte]
      by_cases hm : isMB b = true
      · simp only [hm, if_true]
        exact ⟨u, b, by rw [hu]; simp, hm⟩
      · simp only [hm, if_false]
        by_cases hb : b = 91
        · subst hb; simp only [beq_self_eq_true, if_true]
          exact justified_start l dg
        · simp only [show (b == 91) = false by simpa using hb, if_false]
          exact justified_reset _ _
    · -- state 2
      obtain ⟨u, c1, hu, h1⟩ := h
      rw [scanByte]
      by_cases ha : isAB b = true
      · simp only [ha, if_true]
        exact ⟨u, c1, b, by rw [hu]; simp, h1, ha⟩
      · simp only [ha, if_false]
        exact justified_rms l _ b rfl
    · -- state 3
      obtain ⟨u, c1, c2, hu, h1, h2⟩ := h
      rw [scanByte]
      by_cases hp : isPB b = true
      · simp only [hp, if_true]
        exact ⟨u, c1, c2, b, by rw [hu]; simp, h1, h2, hp⟩
      · simp only [hp, if_false]
        exact justified_rms l _ b rfl
    · -- state 4
      obtain ⟨u, c1, c2, c3, hu, h1, h2, h3⟩ := h
      rw [scanByte]
      by_cases ha : isAB b = true
      · simp only [ha, if_true]
        exact ⟨u, c1, c2, c3, b, by rw [hu]; simp, h1, h2, h3, ha⟩
      · simp only [ha, if_false]
        exact justified_rms l _ b rfl
    · -- state 5
      obtain ⟨u, c1, c2, c3, c4, hu, h1, h2, h3, h4⟩ := h
      rw [scanByte]
      by_cases he : isEB b = true
      · simp only [he, if_true]
        exact ⟨u, c1, c2, c3, c4, b, by rw [hu]; simp, h1, h2, h3, h4, he⟩
      · simp only [he, if_false]
        exact justified_rms l _ b rfl
    · -- state 6
      obtain ⟨u, c1, c2, c3, c4, c5, hu, hl⟩ := h
      rw [scanByte]
      by_cases hc : b = 58
      · subst hc; simp only [beq_self_eq_true, if_true]
        refine ⟨u, c1, c2, c3, c4, c5, ?_, hl, rfl, by simp⟩
        rw [hu]; simp
      · simp only [show (b == 58) = false by simpa using hc, if_false]
        exact justified_rms l _ b rfl
    · -- state 7 (and above: `h` forces st7 = 0 via the `False` arm)
      rcases st7 with _ | st8
      · obtain ⟨u, c1, c2, c3, c4, c5, hu, hl, hhex, hle⟩ := h
        rw [scanByte]
        by_cases hcl : b = 93
        · subst hcl; simp only [beq_self_eq_true, if_true]
          by_cases h64 : dg.length = 64
          · simp only [nonceHexLength, h64, beq_self_eq_true, if_true]
            exact ⟨u, c1, c2, c3, c4, c5, [], hl, hhex, h64, by
              rw [hu, tokBytes]; simp⟩
          · simp only [nonceHexLength, show (dg.length == 64) = false by simpa using h64,
              if_false]
            exact justified_reset _ _
        · simp only [show (b == 93) = false by simpa using hcl, if_false]
          by_cases hws : isWsB b = true
          · simp only [hws, if_true]
            exact justified_reset _ _
          · simp only [hws, if_false]
            by_cases hhx : isHexB b = true
            · simp only [hhx, if_true]
              by_cases hfull : 64 ≤ dg.length
              · simp only [nonceHexLength, hfull, if_true]
                exact justified_reset _ _
              · simp only [nonceHexLength, hfull, if_false]
                refine ⟨u, c1, c2, c3, c4, c5, ?_, hl, ?_, ?_⟩
                · rw [hu]; simp
                · show (dg ++ [b]).all isHexB = true
                  simp [hhex, hhx]
                · show (dg ++ [b]).length ≤ 64
                  simp
                  omega
            · simp only [hhx, if_false]
              exact justified_rms l _ b rfl
      · exact absurd h (by simp [Justified])

/-- The invariant holds along any fold of the scanner. -/
lemma justified_foldl :
    ∀ (l c : List Nat) (s : ScanSt), Justified c s →
      Justified (c ++ l) (l.foldl scanByte s) := by
  intro l
  induction l with
  | nil => intro c s h; simpa using h
  | cons b t ih =>
    intro c s h
    rw [List.foldl_cons]
    have := ih (c ++ [b]) (scanByte s b) (justified_step h b)
    simpa using this

/-- Soundness: a reported nonce comes from a complete token in the input. -/
lemma found_hasTokD {l : List Nat} {ds : List Nat}
    (h : (l.foldl scanByte initScan).found = some ds) : HasTokD l ds := by
  have hj := justified_foldl l [] initScan (by trivial)
  simp only [List.nil_append] at hj
  rw [Justified, h] at hj
  exact hj

/-! ### Relating `tokenPrefix`/`firstToken` to token occurrences -/

lemma grabHex_exact :
    ∀ (ds r : List Nat), ds.all isHexB = true →
      grabHex ds.length (ds ++ r) = some (ds, r) := by
  intro ds
  induction ds with
  | nil => intro r _; rfl
  | cons b t ih =>
    intro r hall
    simp only [List.all_cons, Bool.and_eq_true] at hall
    have hx : (b :: t) ++ r = b :: (t ++ r) := rfl
    rw [hx, List.length_cons, grabHex, ih r hall.2]
    simp [hall.1]

lemma grabHex_sound :
    ∀ (n : Nat) (l ds r : List Nat), grabHex n l = some (ds, r) →
      l = ds ++ r ∧ ds.length = n ∧ ds.all isHexB = true := by
  intro n
  induction n with
  | zero =>
    intro l ds r h
    simp only [grabHex, Option.some_inj, Prod.mk.injEq] at h
    obtain ⟨rfl, rfl⟩ := h
    exact ⟨rfl, rfl, rfl⟩
  | succ m ih =>
    intro l ds r h
    cases l with
    | nil => simp [grabHex] at h
    | cons b t =>
      rw [grabHex] at h
      by_cases hb : isHexB b = true
      · simp only [hb, if_true] at h
        cases hg : grabHex m t with
        | none => rw [hg] at h; simp at h
        | some p =>
          rcases p with ⟨ds2, r2⟩
          rw [hg] at h
          simp only [Option.some_inj, Prod.mk.injEq] at h
          obtain ⟨hds, hr⟩ := h
          obtain ⟨ht, hlen, hall⟩ := ih t ds2 r2 hg
          subst hds hr ht
          exact ⟨rfl, by simp [hlen], by simp [hb, hall]⟩
      · simp [hb] at h

lemma tokenPrefix_of_tok {c1 c2 c3 c4 c5 : Nat} {ds : List Nat}
    (hl : LitsOK c1 c2 c3 c4 c5) (hhex : ds.all isHexB = true)
    (hlen : ds.length = 64) (v : List Nat) :
    tokenPrefix (tokBytes c1 c2 c3 c4 c5 ds ++ v) = some ds := by
  obtain ⟨hm, ha, hp, ha', he⟩ := hl
  have hsplit : (ds ++ [93]) ++ v = ds ++ (93 :: v) := by simp
  rw [tokBytes]
  simp only [List.cons_append, hsplit]
  rw [tokenPrefix]
  simp only [beq_self_eq_true, hm, ha, hp, ha', he, Bool.and_self, Bool.true_and,
    Bool.and_true, if_true]
  rw [show nonceHexLength = ds.length by rw [hlen]; rfl, grabHex_exact ds _ hhex]
  simp

lemma tokenPrefix_inv {r ds : List Nat} (h : tokenPrefix r = some ds) :
    ∃ c1 c2 c3 c4 c5 v, LitsOK c1 c2 c3 c4 c5 ∧ ds.all isHexB = true ∧
      ds.length = 64 ∧ r = tokBytes c1 c2 c3 c4 c5 ds ++ v := by
  match r with
  | [] => simp [tokenPrefix] at h
  | [b0] => simp [tokenPrefix] at h
  | [b0, b1] => simp [tokenPrefix] at h
  | [b0, b1, b2] => simp [tokenPrefix] at h
  | [b0, b1, b2, b3] => simp [tokenPrefix] at h
  | [b0, b1, b2, b3, b4] => simp [tokenPrefix] at h
  | [b0, b1, b2, b3, b4, b5] => simp [tokenPrefix] at h
  | b0 :: b1 :: b2 :: b3 :: b4 :: b5 :: b6 :: rest =>
    rw [tokenPrefix] at h
    by_cases hc : (b0 == 91 && isMB b1 && isAB b2 && isPB b3 && isAB b4 &&
        isEB b5 && b6 == 58) = true
    · simp only [hc, if_true] at h
      simp only [Bool.and_eq_true, beq_iff_eq] at hc
      obtain ⟨⟨⟨⟨⟨⟨h0, h1⟩, h2⟩, h3⟩, h4⟩, h5⟩, h6⟩ := hc
      cases hg : grabHex nonceHexLength rest with
      | none => rw [hg] at h; simp at h
      | some p =>
        rcases p with ⟨ds', r'⟩
        rw [hg] at h
        cases r' with
        | nil => simp at h
        | cons rb rt =>
          by_cases hrb : rb = 93
          · subst hrb
            simp only [beq_self_eq_true, if_true, Option.some_inj] at h
            subst h
            obtain ⟨hrest, hlen, hall⟩ := grabHex_sound _ _ _ _ hg
            subst h0 h6
            exact ⟨b1, b2, b3, b4, b5, rt, ⟨h1, h2, h3, h4, h5⟩, hall, hlen, by
              rw [tokBytes]; simp [hrest]⟩
          · simp only [show (rb == 93) = false by simpa using hrb, if_false] at h
            exact absurd h (by simp)
    · simp [hc] at h

/-- If the input contains a token suffix occurrence, `firstToken` succeeds. -/
lemma firstToken_isSome_of_prefix :
    ∀ (u r : List Nat) {ds : List Nat}, tokenPrefix r = some ds →
      (firstToken (u ++ r)).isSome := by
  intro u
  induction u with
  | nil =>
    intro r ds h
    cases r with
    | nil => simp [tokenPrefix] at h
    | cons b t =>
      simp only [List.nil_append, firstToken, h, Option.isSome_some]
  | cons a u' ih =>
    intro r ds h
    rw [List.cons_append, firstToken]
    cases h2 : tokenPrefix (a :: (u' ++ r)) with
    | some ds' => simp
    | none => exact ih r h

/-- The minimal decomposition produced by `firstToken`. -/
lemma firstToken_decomp :
    ∀ {l ds : List Nat}, firstToken l = some ds →
      ∃ u r, l = u ++ r ∧ tokenPrefix r = some ds ∧
        ∀ u' r', l = u' ++ r' → u'.length < u.length → tokenPrefix r' = none := by
  intro l
  induction l with
  | nil => intro ds h; simp [firstToken] at h
  | cons b t ih =>
    intro ds h
    rw [firstToken] at h
    cases h0 : tokenPrefix (b :: t) with
    | some ds' =>
      rw [h0] at h
      simp only [Option.some_inj] at h
      subst h
      exact ⟨[], b :: t, rfl, h0, fun u' r' _ hlt => absurd hlt (by simp)⟩
    | none =>
      rw [h0] at h
      obtain ⟨u₀, r₀, heq, hr₀, hmin⟩ := ih h
      refine ⟨b :: u₀, r₀, by rw [List.cons_append, heq], hr₀, ?_⟩
      intro u' r' he hlt
      cases u' with
      | nil =>
        simp only [List.nil_append] at he
        rw [← he]
        exact h0
      | cons b' u'' =>
        simp only [List.cons_append, List.cons.injEq] at he
        obtain ⟨rfl, he'⟩ := he
        exact hmin u'' r' he' (by simpa using hlt)

/-- Central scanner correctness: the scanner's report equals the leftmost
naive token match. -/
lemma scanFold_eq_firstToken (l : List Nat) :
    (l.foldl scanByte initScan).found = firstToken l := by
  cases hft : firstToken l with
  | none =>
    cases hsc : (l.foldl scanByte initScan).found with
    | none => rfl
    | some ds =>
      exfalso
      obtain ⟨u, c1, c2, c3, c4, c5, v, hl, hhex, hlen, he⟩ := found_hasTokD hsc
      have := firstToken_isSome_of_prefix u (tokBytes c1 c2 c3 c4 c5 ds ++ v)
        (tokenPrefix_of_tok hl hhex hlen v)
      rw [show u ++ (tokBytes c1 c2 c3 c4 c5 ds ++ v) =
        u ++ tokBytes c1 c2 c3 c4 c5 ds ++ v by simp, ← he] at this
      rw [hft] at this
      simp at this
  | some ds =>
    obtain ⟨u, r, heq, hr, hmin⟩ := firstToken_decomp hft
    have hs₀ : (u.foldl scanByte initScan).found = none := by
      cases hf : (u.foldl scanByte initScan).found with
      | none => rfl
      | some ds' =>
        exfalso
        obtain ⟨a, c1, c2, c3, c4, c5, w, hl, hhex, hlen, heu⟩ := found_hasTokD hf
        have hlt : a.length < u.length := by
          rw [heu]
          simp [tokBytes]
        have hdec : l = a ++ (tokBytes c1 c2 c3 c4 c5 ds' ++ (w ++ r)) := by
          rw [heq, heu]; simp
        have := hmin a (tokBytes c1 c2 c3 c4 c5 ds' ++ (w ++ r)) hdec hlt
        rw [show tokBytes c1 c2 c3 c4 c5 ds' ++ (w ++ r) =
          tokBytes c1 c2 c3 c4 c5 ds' ++ w ++ r by simp] at this
        rw [show tokBytes c1 c2 c3 c4 c5 ds' ++ w ++ r =
          tokBytes c1 c2 c3 c4 c5 ds' ++ (w ++ r) by simp,
          tokenPrefix_of_tok hl hhex hlen (w ++ r)] at this
        simp at this
    obtain ⟨c1, c2, c3, c4, c5, v, hl, hhex, hlen, hrdec⟩ := tokenPrefix_inv hr
    rw [heq, List.foldl_append, hrdec, List.foldl_append,
      foldl_token hs₀ hl hhex hlen, foldl_scanByte_found (by simp)]

lemma firstToken_isSome_iff (l : List Nat) :
    (firstToken l).isSome ↔ ∃ ds, HasTokD l ds := by
  constructor
  · intro h
    cases hft : firstToken l with
    | none => rw [hft] at h; simp at h
    | some ds =>
      obtain ⟨u, r, heq, hr, _⟩ := firstToken_decomp hft
      obtain ⟨c1, c2, c3, c4, c5, v, hl, hhex, hlen, hrdec⟩ := tokenPrefix_inv hr
      exact ⟨ds, u, c1, c2, c3, c4, c5, v, hl, hhex, hlen, by rw [heq, hrdec]; simp⟩
  · rintro ⟨ds, u, c1, c2, c3, c4, c5, v, hl, hhex, hlen, heq⟩
    have := firstToken_isSome_of_prefix u (tokBytes c1 c2 c3 c4 c5 ds ++ v)
      (tokenPrefix_of_tok hl hhex hlen v)
    rwa [show u ++ (tokBytes c1 c2 c3 c4 c5 ds ++ v) =
      u ++ tokBytes c1 c2 c3 c4 c5 ds ++ v by simp, ← heq] at this

/-- **C2.** For every byte stream fed to the streaming nonce matcher
(`nonceScanner.scanByte` iterated by `Scan`), a nonce is reported iff the
stream contains the case-insensitive literal `[MAPAE:` followed by exactly 64
hex digits terminated by `]` (`HasTokD`); whitespace/non-hex bytes inside the
hex region, early `]`, or a 65th hex digit never produce a report (these
inputs simply contain no complete token), `[` re-enters a candidate so
overlapping candidates are not missed, and the reported nonce is exactly the
digits of the leftmost (first) complete token: the scanner's result coincides
with the naive leftmost matcher `firstToken` on every input. -/
theorem C2_nonce_scanner_correct (l : List Nat) :
    (scanList initScan l).found = firstToken l ∧
      ((scanList initScan l).found.isSome ↔ ∃ ds, HasTokD l ds) := by
  refine ⟨?_, ?_⟩
  · rw [scanList_eq_foldl]
    exact scanFold_eq_firstToken l
  · rw [scanList_eq_foldl, scanFold_eq_firstToken l]
    exact firstToken_isSome_iff l

lemma sget_sdel_self (k : String) : ∀ st : Store, sget k (sdel k st) = none := by
  intro st
  induction st with
  | nil => rfl
  | cons p t ih =>
    rcases p with ⟨k', e⟩
    rw [sdel]
    by_cases h : k' = k
    · simpa [h]
    · rw [if_neg h, sget, if_neg h]
      exact ih

lemma takeSeq_absent {st : Store} {now : Int} {key : String}
    (h : sget key st = none) (n : Nat) :
    takeSeq n st now key = List.replicate n ("", false) := by
  induction n with
  | zero => rfl
  | succ m ih =>
    rw [takeSeq]
    have ht : take st now key = (("", false), st) := by simp [take, h]
    rw [ht, List.replicate_succ]
    exact congrArg _ ih

/-- Exactly-once consumption: any serialization of `n + 1` concurrent
`Take` calls on a live key yields the stored value exactly once. -/
lemma takeSeq_once {st : Store} {now : Int} {key : String} {e : Entry}
    (hget : sget key st = some e) (hlive : now < e.expiresAt) (n : Nat) :
    takeSeq (n + 1) st now key =
      (e.value, true) :: List.replicate n ("", false) := by
  rw [takeSeq]
  have hnot : ¬ e.expiresAt ≤ now := by omega
  have ht : take st now key = ((e.value, true), sdel key st) := by
    simp [take, hget, hnot]
  rw [ht]
  exact congrArg _ (takeSeq_absent (sget_sdel_self key st) n)

/-- **C1.** For every nonce key present (and unexpired) in the store, the
striped-mutex `Take` of the in-memory client consumes it at most once: the
lock serializes the 64 concurrent `Take("nonce:X")` calls, and in the
resulting sequence exactly one call returns `(value, true)` while the other
63 return `("", false)`, with no error outcome.  Consequently no two SMTP
deliveries can both observe the nonce entry present. -/
theorem C1_take_consumes_at_most_once {st : Store} {now : Int} {key : String}
    {e : Entry} (hget : sget key st = some e) (hlive : now < e.expiresAt) :
    takeSeq 64 st now key = (e.value, true) :: List.replicate 63 ("", false) ∧
      (takeSeq 64 st now key).count (e.value, true) =
        1 + List.count (e.value, true) (List.replicate 63 ("", false)) ∧
      ∀ r ∈ takeSeq 64 st now key, r = (e.value, true) ∨ r.2 = false := by
  have h := takeSeq_once hget hlive 63
  refine ⟨h, ?_, ?_⟩
  · rw [h]
    simp
  · intro r hr
    rw [h] at hr
    rcases List.mem_cons.mp hr with h1 | h2
    · exact Or.inl h1
    · right
      have := List.eq_of_mem_replicate h2
      rw [this]

/-- Witness for C1 at a concrete store. -/
theorem C1_take_consumes_at_most_once_witness :
    takeSeq 64 [("nonce:ab", ⟨"authid", 100⟩)] 0 "nonce:ab" =
      ("authid", true) :: List.replicate 63 ("", false) := by
  have h := @C1_take_consumes_at_most_once
    [("nonce:ab", ⟨"authid", 100⟩)] 0 "nonce:ab"
    ⟨"authid", 100⟩ (by decide) (by decide)
  exact h.1

lemma clrDrive_tooLarge :
    ∀ (fuel : Nat) (c : CLR) (k : Nat), 1 ≤ k → 0 < c.limit → 0 ≤ c.n →
      c.n ≤ c.limit → c.limit < c.n + c.src.length → c.src.length < fuel →
      clrDrive fuel c k = some RErr.tooLarge := by
  intro fuel
  induction fuel with
  | zero =>
    intro c k _ _ _ _ _ hf
    exact absurd hf (by omega)
  | succ f ih =>
    intro c k hk hlim hn0 hnle hover hfuel
    rcases c with ⟨src, limit, n⟩
    simp only at hlim hn0 hnle hover hfuel
    have hsrcne : src ≠ [] := by
      intro h
      rw [h] at hover
      simp at hover
      omega
    have hcond : ¬ (0 < limit ∧ limit + 1 - n ≤ 0) := by
      rintro ⟨_, h2⟩
      omega
    have hcap : clrCap limit n k = min k (limit + 1 - n).toNat := if_pos hlim
    have hcapPos : 1 ≤ clrCap limit n k := by
      rw [hcap]
      have h1 : (1 : Int) ≤ limit + 1 - n := by omega
      have h2 : 1 ≤ (limit + 1 - n).toNat := by omega
      omega
    have htlen : (src.take (clrCap limit n k)).length =
        min (clrCap limit n k) src.length := by simp
    rw [clrDrive, clrRead, if_neg hcond, if_neg (by simpa using hsrcne)]
    by_cases hx : limit < n + ((src.take (clrCap limit n k)).length : Int)
    · rw [if_pos ⟨hlim, hx⟩]
    · rw [if_neg (fun h => hx h.2)]
      have hlen1 : 1 ≤ src.length := by
        cases src with
        | nil => exact absurd rfl hsrcne
        | cons a b => simp
      by_cases hall : (src.take (clrCap limit n k)).length = src.length
      · exfalso
        rw [hall] at hx
        omega
      · have hcapLe : clrCap limit n k ≤ src.length := by
          rw [htlen] at hall
          omega
        have htk : (src.take (clrCap limit n k)).length = clrCap limit n k := by
          rw [htlen]
          omega
        rw [htk] at hx
        refine ih ⟨src.drop (clrCap limit n k), limit,
          n + ((src.take (clrCap limit n k)).length : Int)⟩ k hk hlim ?_ ?_ ?_ ?_
        · show 0 ≤ n + ((src.take (clrCap limit n k)).length : Int)
          rw [htk]
          omega
        · show n + ((src.take (clrCap limit n k)).length : Int) ≤ limit
          rw [htk]
          omega
        · show limit < n + ((src.take (clrCap limit n k)).length : Int) +
            ((src.drop (clrCap limit n k)).length : Int)
          rw [htk, List.length_drop]
          omega
        · show (src.drop (clrCap limit n k)).length < f
          rw [List.length_drop]
          omega

/-- **C4.** If the configured size limit is positive and the input is
longer than the limit, then (a) the stream scanner's counting reader fails
with `MessageTooLarge` once more than `limit` bytes have been read, for any
read-buffer size, and (b) the SMTP `DATA` handler replies
`552 Message size exceeds limit` and performs no further processing: the
store-effect trace is empty, so no nonce is consumed and no verified record
is written, even when the oversized message contains a valid nonce. -/
theorem C4_size_limit_enforced {src : List Nat} {limit : Int} {k : Nat}
    (hlim : 0 < limit) (hlen : limit < (src.length : Int)) (hk : 1 ≤ k) :
    clrDrive (src.length + 1) ⟨src, limit, 0⟩ k = some RErr.tooLarge ∧
      ∀ (spf : List Nat → SPFRes) (parseAddr : List Nat → Option (List Nat))
        (takeRes : List Nat → TakeOutcome) (storeOK peer : Bool)
        (mailFrom : List Nat),
        sessionData spf parseAddr takeRes storeOK peer mailFrom src limit =
          (some ⟨552, "Message size exceeds limit"⟩, []) := by
  constructor
  · exact clrDrive_tooLarge (src.length + 1) ⟨src, limit, 0⟩ k hk hlim (by simp)
      (by simp; omega) (by simp; omega) (by simp)
  · intro spf parseAddr takeRes storeOK peer mailFrom
    have hrd : readData src limit = (src.take limit.toNat, true) := by
      rw [readData, if_neg (by omega)]
      have hlen2 : (src.take (limit.toNat + 1)).length = limit.toNat + 1 := by
        simp
        omega
      rw [if_pos (by rw [hlen2]; push_cast; omega)]
      simp [List.take_take]
    rw [sessionData, hrd]
    simp

/-- Witness for C4 at a concrete oversized input. -/
theorem C4_size_limit_enforced_witness :
    clrDrive 6 ⟨[1, 2, 3, 4, 5], 3, 0⟩ 2 = some RErr.tooLarge ∧
      sessionData (fun _ => SPFRes.pass) (fun _ => none) (fun _ => TakeOutcome.miss)
        true true [] [1, 2, 3, 4, 5] 3 =
        (some ⟨552, "Message size exceeds limit"⟩, []) := by
  have h := @C4_size_limit_enforced [1, 2, 3, 4, 5] 3 2
    (by decide) (by decide) (by decide)
  exact ⟨h.1, h.2 _ _ _ _ _ _⟩

/-- **C5.** For every DATA transaction with a known peer IP, if SPF over
the sanitized envelope sender and SPF over the header From address both
fail to return `Pass`, `handleData` replies `451 SPF temperror` when
either computed result is `TempError` and `550 SPF fail` otherwise, and in
either case the store-effect trace is empty: no nonce is consumed and no
verified record is written. -/
theorem C5_spf_double_failure
    (spf : List Nat → SPFRes) (parseAddr : List Nat → Option (List Nat))
    (takeRes : List Nat → TakeOutcome) (storeOK : Bool) (mailFrom raw : List Nat)
    (hEnv : envSPFResult spf parseAddr mailFrom ≠ SPFRes.pass)
    (hHdr : hdrSPFResult spf parseAddr (headerFromOf raw) ≠ SPFRes.pass) :
    handleData spf parseAddr takeRes storeOK true mailFrom raw =
      ((if envSPFResult spf parseAddr mailFrom = SPFRes.temperror ∨
          hdrSPFResult spf parseAddr (headerFromOf raw) = SPFRes.temperror
        then some ⟨451, "SPF temperror"⟩ else some ⟨550, "SPF fail"⟩), []) := by
  rw [handleData]
  simp only [if_true, ne_eq]
  rw [if_pos ⟨trivial, by
    rintro (h | h)
    · exact hEnv h
    · exact hHdr h⟩]
  by_cases ht : envSPFResult spf parseAddr mailFrom = SPFRes.temperror ∨
      hdrSPFResult spf parseAddr (headerFromOf raw) = SPFRes.temperror
  · rw [if_pos ht, if_pos ht]
  · rw [if_neg ht, if_neg ht]

/-- Witness for C5: both SPF checks return `Fail` at a concrete message. -/
theorem C5_spf_double_failure_witness :
    handleData (fun _ => SPFRes.fail) (fun _ => none) (fun _ => TakeOutcome.miss)
      true true (strB "a@b") (strB "From: x@y" ++ [13, 10, 13, 10] ++ strB "body") =
      (some ⟨550, "SPF fail"⟩, []) := by
  have h := C5_spf_double_failure (fun _ => SPFRes.fail) (fun _ => none)
    (fun _ => TakeOutcome.miss) true (strB "a@b")
    (strB "From: x@y" ++ [13, 10, 13, 10] ++ strB "body")
    (by decide) (by decide)
  rw [h]
  decide

/-- **C6.** For every input auth_id, `CheckAuth` returns the
`invalid_auth_id` error iff the id does not match `^[0-9a-fA-F]{32}$`, and
then accesses no store key; otherwise it reads `auth:<id>` and returns
status `expired` when the key is absent (or lazily expired), the stored
record itself when its payload decodes with status `"verified"`, and
status `waiting` in every other case, including when the payload is not
parseable JSON. -/
theorem C6_checkAuth_classification (decode : String → Option AuthResp)
    (st : Store) (now : Int) (id : String) :
    ((checkAuth decode st now id).1 = .error .invalidAuthID ↔
      authIDMatch id = false) ∧
    (authIDMatch id = false → (checkAuth decode st now id).2 = []) ∧
    (authIDMatch id = true → (checkAuth decode st now id).2 = [authKey id] ∧
      ((memGet st now (authKey id)).1.2 = false →
        (checkAuth decode st now id).1 = .ok AuthResp.expired) ∧
      (∀ v, (memGet st now (authKey id)).1 = (v, true) →
        (decode v = none →
          (checkAuth decode st now id).1 = .ok AuthResp.waiting) ∧
        (∀ r, decode v = some r →
          (r.status = "verified" → (checkAuth decode st now id).1 = .ok r) ∧
          (r.status ≠ "verified" →
            (checkAuth decode st now id).1 = .ok AuthResp.waiting)))) := by
  by_cases hm : authIDMatch id = true
  · refine ⟨?_, ?_, ?_⟩
    · rw [checkAuth, if_neg (by simp [hm])]
      constructor
      · intro h
        by_cases hg : (memGet st now (authKey id)).1.2 = true
        · simp only [hg, not_true, if_neg, if_false] at h
          rcases hd : decode (memGet st now (authKey id)).1.1 with _ | r
          · rw [hd] at h; simp at h
          · rw [hd] at h
            by_cases hv : r.status = "verified" <;> simp [hv] at h
        · simp only [hg] at h
          simp at h
      · intro h
        rw [hm] at h
        simp at h
    · intro h; rw [hm] at h; simp at h
    · intro _
      refine ⟨?_, ?_, ?_⟩
      · rw [checkAuth, if_neg (by simp [hm])]
        by_cases hg : (memGet st now (authKey id)).1.2 = true
        · simp only [hg, not_true, if_false]
          rcases hd : decode (memGet st now (authKey id)).1.1 with _ | r
          · simp
          · by_cases hv : r.status = "verified" <;> simp [hv]
        · simp [hg]
      · intro hab
        rw [checkAuth, if_neg (by simp [hm])]
        simp [hab]
      · intro v hv
        constructor
        · intro hd
          rw [checkAuth, if_neg (by simp [hm])]
          simp [hv, hd]
        · intro r hd
          constructor
          · intro hverified
            rw [checkAuth, if_neg (by simp [hm])]
            simp [hv, hd, hverified]
          · intro hnv
            rw [checkAuth, if_neg (by simp [hm])]
            simp [hv, hd, hnv]
  · have hm' : authIDMatch id = false := by simpa using hm
    refine ⟨?_, ?_, ?_⟩
    · rw [checkAuth, if_pos (by simp [hm'])]
      simp [hm']
    · intro _
      rw [checkAuth, if_pos (by simp [hm'])]
    · intro h
      rw [h] at hm'
      simp at hm'

/-- Witness for C6: a malformed id is rejected without store access, and a
well-formed id resolves the expired / corrupt / verified cases. -/
theorem C6_checkAuth_classification_witness :
    (checkAuth decodeAuthJSON [] 0 "zz").1 = .error .invalidAuthID ∧
    (checkAuth decodeAuthJSON [] 0 "zz").2 = [] ∧
    (checkAuth decodeAuthJSON [] 0 "abcdefABCDEF01234567890123456789").1 =
      .ok AuthResp.expired ∧
    (checkAuth decodeAuthJSON
      [(authKey "abcdefABCDEF01234567890123456789", ⟨"not-json", 50⟩)] 0
      "abcdefABCDEF01234567890123456789").1 = .ok AuthResp.waiting ∧
    (checkAuth decodeAuthJSON
      [(authKey "abcdefABCDEF01234567890123456789",
        ⟨marshalVerified ⟨"verified", "01012345678", "KT", "t0"⟩, 50⟩)] 0
      "abcdefABCDEF01234567890123456789").1 =
      .ok ⟨"verified", "01012345678", "KT", "t0", ""⟩ := by
  have h1 := C6_checkAuth_classification decodeAuthJSON [] 0 "zz"
  have h2 := C6_checkAuth_classification decodeAuthJSON [] 0
    "abcdefABCDEF01234567890123456789"
  have h3 := C6_checkAuth_classification decodeAuthJSON
    [(authKey "abcdefABCDEF01234567890123456789", ⟨"not-json", 50⟩)] 0
    "abcdefABCDEF01234567890123456789"
  have h4 := C6_checkAuth_classification decodeAuthJSON
    [(authKey "abcdefABCDEF01234567890123456789",
      ⟨marshalVerified ⟨"verified", "01012345678", "KT", "t0"⟩, 50⟩)] 0
    "abcdefABCDEF01234567890123456789"
  refine ⟨h1.1.mpr (by decide), h1.2.1 (by decide), ?_, ?_, ?_⟩
  · exact ((h2.2.2 (by decide)).2.1) (by decide)
  · exact (((h3.2.2 (by decide)).2.2 "not-json" (by decide)).1) (by decide)
  · exact ((((h4.2.2 (by decide)).2.2
      (marshalVerified ⟨"verified", "01012345678", "KT", "t0"⟩) (by decide)).2
      ⟨"verified", "01012345678", "KT", "t0", ""⟩ (by decide)).1) (by decide)

lemma jStringAux_closed (cs : List Char)
    (h : cs.all (fun c => !(c = '"' || c = '\\')) = true) :
    ∀ (rest acc : List Char),
      jStringAux (cs ++ '"' :: rest) acc = some (⟨acc.reverse ++ cs⟩, rest) := by
  induction cs with
  | nil => intro rest acc; simp [jStringAux]
  | cons c t ih =>
    intro rest acc
    simp only [List.all_cons, Bool.and_eq_true, Bool.not_eq_true',
      Bool.or_eq_false_iff, decide_eq_false_iff_not] at h
    rw [List.cons_append, jStringAux, if_neg h.1.1, if_neg h.1.2]
    rw [ih h.2 rest (c :: acc)]
    simp

/-- One `jFields` step on a well-formed non-final `"key":"value",` field. -/
lemma jFields_more (fuel : Nat) (k v : String) (acc : AuthResp)
    (rest : List Char)
    (hk : k.data.all (fun c => !(c = '"' || c = '\\')) = true)
    (hv : v.data.all (fun c => !(c = '"' || c = '\\')) = true) :
    jFields (fuel + 1)
      ('"' :: (k.data ++ '"' :: ':' :: '"' :: (v.data ++ '"' :: ',' :: rest)))
      acc = jFields fuel rest (setField acc k v) := by
  rw [jFields]
  rw [show parseJString
      ('"' :: (k.data ++ '"' :: ':' :: '"' :: (v.data ++ '"' :: ',' :: rest))) =
      jStringAux (k.data ++ '"' :: (':' :: '"' :: (v.data ++ '"' :: ',' :: rest)))
        [] from rfl]
  rw [jStringAux_closed k.data hk _ []]
  simp only [List.reverse_nil, List.nil_append]
  rw [show (⟨k.data⟩ : String) = k from rfl]
  rw [show parseJString ('"' :: (v.data ++ '"' :: ',' :: rest)) =
      jStringAux (v.data ++ '"' :: (',' :: rest)) [] from rfl]
  rw [jStringAux_closed v.data hv _ []]
  simp only [List.reverse_nil, List.nil_append]

/-- One `jFields` step on a well-formed final `"key":"value"}` field. -/
lemma jFields_last (fuel : Nat) (k v : String) (acc : AuthResp)
    (hk : k.data.all (fun c => !(c = '"' || c = '\\')) = true)
    (hv : v.data.all (fun c => !(c = '"' || c = '\\')) = true) :
    jFields (fuel + 1)
      ('"' :: (k.data ++ '"' :: ':' :: '"' :: (v.data ++ ['"', '}'])))
      acc = some (setField acc k v) := by
  rw [jFields]
  rw [show parseJString
      ('"' :: (k.data ++ '"' :: ':' :: '"' :: (v.data ++ ['"', '}']))) =
      jStringAux (k.data ++ '"' :: (':' :: '"' :: (v.data ++ ['"', '}']))) []
      from rfl]
  rw [jStringAux_closed k.data hk _ []]
  simp only [List.reverse_nil, List.nil_append]
  rw [show (⟨k.data⟩ : String) = k from rfl]
  rw [show parseJString ('"' :: (v.data ++ ['"', '}'])) =
      jStringAux (v.data ++ '"' :: ['}']) [] from rfl]
  rw [jStringAux_closed v.data hv _ []]
  simp only [List.reverse_nil, List.nil_append]

lemma decodeAuthJSON_open (r : List Char) (s : String) (h : s.data = '{' :: r) :
    decodeAuthJSON s = jFields (r.length + 1) r ⟨"", "", "", "", ""⟩ := by
  unfold decodeAuthJSON
  rw [h]
  simp

/-- Decoding the marshalled payload with empty phone/carrier recovers the
status and timestamp, and phone and carrier are empty. -/
lemma decode_marshal_empty (status ts : String)
    (hst : status.data.all (fun c => !(c = '"' || c = '\\')) = true)
    (hts : ts.data.all (fun c => !(c = '"' || c = '\\')) = true) :
    decodeAuthJSON (marshalVerified ⟨status, "", "", ts⟩) =
      some ⟨status, "", "", ts, ""⟩ := by
  have hdata : (marshalVerified ⟨status, "", "", ts⟩).data =
      '{' :: ('"' :: ("status".data ++ '"' :: ':' :: '"' ::
        (status.data ++ '"' :: ',' :: ('"' :: ("timestamp".data ++ '"' :: ':' ::
          '"' :: (ts.data ++ ['"', '}'])))))) := by
    show (("\x7b" ++ "\"status\":" ++ jsonStr status ++ "" ++ "" ++
      ",\"timestamp\":" ++ jsonStr ts ++ "\x7d") : String).data = _
    simp [jsonStr]
  rw [decodeAuthJSON_open _ _ hdata]
  rw [jFields_more _ "status" status _ _ (by decide) hst]
  rw [List.length_cons]
  rw [jFields_last _ "timestamp" ts _ (by decide) hts]
  rfl

/-- **C7 counterexample.** The claim "a later `StoreVerified` with nil
phone and carrier does not change the stored phone and carrier away from
the previously stored values" is false: after storing a verified record
with phone `01012345678` and carrier `KT`, a second `StoreVerified` with
nil phone and carrier overwrites the payload, and `CheckAuth` then reports
empty phone and carrier. -/
theorem C7_counterexample :
    (checkAuth decodeAuthJSON
      [(authKey "cccccccccccccccccccccccccccccccc",
        ⟨marshalVerified ⟨"verified", "01012345678", "KT",
          "2024-01-01T00:00:00Z"⟩, 10000⟩)]
      0 "cccccccccccccccccccccccccccccccc").1 =
      .ok ⟨"verified", "01012345678", "KT", "2024-01-01T00:00:00Z", ""⟩ ∧
    storeVerified
      [(authKey "cccccccccccccccccccccccccccccccc",
        ⟨marshalVerified ⟨"verified", "01012345678", "KT",
          "2024-01-01T00:00:00Z"⟩, 10000⟩)]
      0 300 "cccccccccccccccccccccccccccccccc" none none
      "2024-01-02T00:00:00Z" =
      some [(authKey "cccccccccccccccccccccccccccccccc",
        ⟨marshalVerified ⟨"verified", "", "", "2024-01-02T00:00:00Z"⟩, 300⟩)] ∧
    (checkAuth decodeAuthJSON
      [(authKey "cccccccccccccccccccccccccccccccc",
        ⟨marshalVerified ⟨"verified", "", "", "2024-01-02T00:00:00Z"⟩, 300⟩)]
      0 "cccccccccccccccccccccccccccccccc").1 =
      .ok ⟨"verified", "", "", "2024-01-02T00:00:00Z", ""⟩ ∧
    ("" : String) ≠ "01012345678" := by decide

/-- **C7 (amended).** A later `StoreVerified` call with nil phone and nil
carrier refreshes the timestamp and resets `VerifiedTTL`, but it
unconditionally overwrites the record: the freshly stored payload declares
status `verified` with the new timestamp and *empty* phone and carrier, so
previously stored phone/carrier values are lost rather than preserved. -/
theorem C7_storeVerified_overwrites (st : Store) (now ttl : Int) (id ts : String)
    (httl : 0 < ttl)
    (hts : ts.data.all (fun c => !(c = '"' || c = '\\')) = true) :
    storeVerified st now ttl id none none ts =
      some ((authKey id,
        ⟨marshalVerified ⟨"verified", "", "", ts⟩, now + ttl⟩) ::
          sdel (authKey id) st) ∧
    decodeAuthJSON (marshalVerified ⟨"verified", "", "", ts⟩) =
      some ⟨"verified", "", "", ts, ""⟩ := by
  constructor
  · rw [storeVerified, setEx, if_neg (by omega)]
    rfl
  · exact decode_marshal_empty "verified" ts (by decide) hts

/-- Witness for the amended C7 at a concrete store. -/
theorem C7_storeVerified_overwrites_witness :
    storeVerified
      [(authKey "cccccccccccccccccccccccccccccccc", ⟨"old", 10000⟩)]
      0 300 "cccccccccccccccccccccccccccccccc" none none "t1" =
      some [(authKey "cccccccccccccccccccccccccccccccc",
        ⟨marshalVerified ⟨"verified", "", "", "t1"⟩, 300⟩)] ∧
    decodeAuthJSON (marshalVerified ⟨"verified", "", "", "t1"⟩) =
      some ⟨"verified", "", "", "t1", ""⟩ := by
  have h := C7_storeVerified_overwrites
    [(authKey "cccccccccccccccccccccccccccccccc", ⟨"old", 10000⟩)]
    0 300 "cccccccccccccccccccccccccccccccc" "t1" (by decide) (by decide)
  exact ⟨by rw [h.1]; decide, h.2⟩

/-- **C8 counterexample.** With no signer configured, `CheckSigned` on a
valid auth_id that is *present* in the store does not necessarily return
`jwks_unavailable`: a present but unparseable (or non-verified) payload
yields `waiting` instead, so the claim's "every valid auth_id present in
the store returns jwks_unavailable" is false. -/
theorem C8_counterexample :
    authIDMatch "dddddddddddddddddddddddddddddddd" = true ∧
    (memGet [(authKey "dddddddddddddddddddddddddddddddd", ⟨"x", 10⟩)] 0
      (authKey "dddddddddddddddddddddddddddddddd")).1.2 = true ∧
    checkSigned decodeAuthJSON false (fun _ _ _ _ => "")
      [(authKey "dddddddddddddddddddddddddddddddd", ⟨"x", 10⟩)] 0
      "dddddddddddddddddddddddddddddddd" = .ok AuthResp.waiting ∧
    (Except.ok AuthResp.waiting : Except AuthErr AuthResp) ≠
      .error .jwksUnavailable := by decide

/-- **C8 (amended).** When the service is constructed with no JWT private
key, `CheckSigned`'s outcome is classified completely: invalid ids give
`invalid_auth_id`, absent keys give `expired`, present payloads that are
unparseable or not `verified` give `waiting`, and the `jwks_unavailable`
error occurs exactly for present payloads that decode with status
`verified` (regardless of phone); `JWKS` likewise returns
`jwks_unavailable`; and no token is ever synthesized: every successful
response carries an empty token. -/
theorem C8_no_signer_behavior (decode : String → Option AuthResp)
    (sign : String → String → String → String → String)
    (st : Store) (now : Int) (id : String) (doc : String) :
    checkSigned decode false sign st now id =
      (if authIDMatch id = false then .error .invalidAuthID
       else if (memGet st now (authKey id)).1.2 = false then
         .ok AuthResp.expired
       else
         match decode (memGet st now (authKey id)).1.1 with
         | none => .ok AuthResp.waiting
         | some r =>
           if r.status = "verified" then .error .jwksUnavailable
           else .ok AuthResp.waiting) ∧
    jwksOf false doc = .error .jwksUnavailable ∧
    (∀ r, checkSigned decode false sign st now id = .ok r → r.token = "") := by
  have hcls : checkSigned decode false sign st now id =
      (if authIDMatch id = false then .error .invalidAuthID
       else if (memGet st now (authKey id)).1.2 = false then
         .ok AuthResp.expired
       else
         match decode (memGet st now (authKey id)).1.1 with
         | none => .ok AuthResp.waiting
         | some r =>
           if r.status = "verified" then .error .jwksUnavailable
           else .ok AuthResp.waiting) := by
    rw [checkSigned]
    by_cases hm : authIDMatch id = true
    · by_cases hg : (memGet st now (authKey id)).1.2 = true
      · rcases hd : decode (memGet st now (authKey id)).1.1 with _ | r
        · simp [hm, hg, hd]
        · by_cases hv : r.status = "verified"
          · simp [hm, hg, hd, hv]
          · simp [hm, hg, hd, hv]
      · have hg' : (memGet st now (authKey id)).1.2 = false := by
          simpa using hg
        simp [hm, hg']
    · have hm' : authIDMatch id = false := by simpa using hm
      simp [hm']
  refine ⟨hcls, rfl, ?_⟩
  intro r hr
  rw [hcls] at hr
  by_cases hm : authIDMatch id = false
  · rw [if_pos hm] at hr
    cases hr
  · rw [if_neg hm] at hr
    by_cases hg : (memGet st now (authKey id)).1.2 = false
    · rw [if_pos hg] at hr
      simp only [Except.ok.injEq] at hr
      rw [← hr]
      rfl
    · rw [if_neg hg] at hr
      rcases hd : decode (memGet st now (authKey id)).1.1 with _ | rr
      · simp only [hd, Except.ok.injEq] at hr
        rw [← hr]
        rfl
      · simp only [hd] at hr
        by_cases hv : rr.status = "verified"
        · rw [if_pos hv] at hr
          cases hr
        · rw [if_neg hv] at hr
          simp only [Except.ok.injEq] at hr
          rw [← hr]
          rfl

/-- Witness for the amended C8: on a store holding one verified record and
one expired key, the classification gives `jwks_unavailable` for the
verified id and `expired` for the absent one (mirrors the service's own
test). -/
theorem C8_no_signer_behavior_witness :
    checkSigned decodeAuthJSON false (fun _ _ _ _ => "")
      [(authKey "cccccccccccccccccccccccccccccccc",
        ⟨marshalVerified ⟨"verified", "01011112222", "SKT", "t0"⟩, 60⟩)] 0
      "cccccccccccccccccccccccccccccccc" = .error .jwksUnavailable ∧
    checkSigned decodeAuthJSON false (fun _ _ _ _ => "")
      [(authKey "cccccccccccccccccccccccccccccccc",
        ⟨marshalVerified ⟨"verified", "01011112222", "SKT", "t0"⟩, 60⟩)] 0
      "dddddddddddddddddddddddddddddddd" = .ok AuthResp.expired ∧
    jwksOf false "doc" = .error .jwksUnavailable := by
  have h1 := C8_no_signer_behavior decodeAuthJSON (fun _ _ _ _ => "")
    [(authKey "cccccccccccccccccccccccccccccccc",
      ⟨marshalVerified ⟨"verified", "01011112222", "SKT", "t0"⟩, 60⟩)] 0
    "cccccccccccccccccccccccccccccccc" "doc"
  have h2 := C8_no_signer_behavior decodeAuthJSON (fun _ _ _ _ => "")
    [(authKey "cccccccccccccccccccccccccccccccc",
      ⟨marshalVerified ⟨"verified", "01011112222", "SKT", "t0"⟩, 60⟩)] 0
    "dddddddddddddddddddddddddddddddd" "doc"
  refine ⟨?_, ?_, h1.2.1⟩
  · rw [h1.1]
    decide
  · rw [h2.1]
    decide

lemma hexEncode_data (bs : List Nat) :
    (hexEncode bs).data =
      bs.foldr (fun b acc => hexDigitChar (b / 16) :: hexDigitChar (b % 16) :: acc)
        [] := rfl

lemma hexEncode_length (bs : List Nat) :
    (hexEncode bs).length = 2 * bs.length := by
  show (hexEncode bs).data.length = 2 * bs.length
  rw [hexEncode_data]
  induction bs with
  | nil => rfl
  | cons b t ih =>
    simp only [List.foldr_cons, List.length_cons, List.foldr]
    rw [show (List.foldr (fun b acc =>
      hexDigitChar (b / 16) :: hexDigitChar (b % 16) :: acc) [] t).length =
        2 * t.length from ih]
    ring

lemma hexEncode_chars {bs : List Nat} {c : Char}
    (h : c ∈ (hexEncode bs).data) :
    ∃ b ∈ bs, c = hexDigitChar (b / 16) ∨ c = hexDigitChar (b % 16) := by
  rw [hexEncode_data] at h
  induction bs with
  | nil => simp at h
  | cons b t ih =>
    simp only [List.foldr_cons, List.mem_cons] at h
    rcases h with h | h | h
    · exact ⟨b, List.mem_cons_self b t, Or.inl h⟩
    · exact ⟨b, List.mem_cons_self b t, Or.inr h⟩
    · obtain ⟨b', hb', hc⟩ := ih h
      exact ⟨b', List.mem_cons_of_mem b hb', hc⟩

lemma hexEncode_mem {bs : List Nat} {b : Nat} (h : b ∈ bs) :
    hexDigitChar (b / 16) ∈ (hexEncode bs).data ∧
      hexDigitChar (b % 16) ∈ (hexEncode bs).data := by
  rw [hexEncode_data]
  induction bs with
  | nil => simp at h
  | cons a t ih =>
    rcases List.mem_cons.mp h with rfl | hmem
    · simp
    · have := ih hmem
      simp only [List.foldr_cons, List.mem_cons]
      exact ⟨Or.inr (Or.inr this.1), Or.inr (Or.inr this.2)⟩

lemma hexDigitChar_isHex {m : Nat} (h : m ≤ 15) :
    isHexChar (hexDigitChar m) = true := by
  interval_cases m <;> decide

lemma hexDigitChar_upper_isHex {m : Nat} (h : m ≤ 15) :
    isHexChar (upperChar (hexDigitChar m)) = true := by
  interval_cases m <;> decide

lemma hexDigitChar_upper_ne {m : Nat} (h1 : 10 ≤ m) (h2 : m ≤ 15) :
    upperChar (hexDigitChar m) ≠ hexDigitChar m := by
  interval_cases m <;> decide

lemma map_eq_self_mem {f : Char → Char} {l : List Char} (h : l.map f = l) :
    ∀ x ∈ l, f x = x := by
  induction l with
  | nil => intro x hx; simp at hx
  | cons a t ih =>
    simp only [List.map_cons, List.cons.injEq] at h
    intro x hx
    rcases List.mem_cons.mp hx with rfl | hmem
    · exact h.1
    · exact ih h.2 x hmem

/-- **C10.** `InitAuth` always issues `hexEncode` of 16 random bytes: a
32-character lowercase hex auth_id, which passes the `CheckAuth` format
check; the format check also accepts the uppercased variant.  For every
issued id that contains a letter (some nibble ≥ 10), the uppercased
variant differs from the id, passes validation, names a different store
key, and `CheckAuth` on it over a store holding only the issued id's
record returns status `expired` (never the issued id's record, which the
original id resolves without `expired`). -/
theorem C10_uppercase_variant_misses {bs : List Nat}
    (hlen : bs.length = 16) (hbytes : ∀ b ∈ bs, b < 256)
    (hletter : ∃ b ∈ bs, 10 ≤ b / 16 ∨ 10 ≤ b % 16) :
    authIDMatch (hexEncode bs) = true ∧
    authIDMatch (upperStr (hexEncode bs)) = true ∧
    upperStr (hexEncode bs) ≠ hexEncode bs ∧
    authKey (upperStr (hexEncode bs)) ≠ authKey (hexEncode bs) ∧
    (∀ (decode : String → Option AuthResp) (val : String) (ea now : Int),
      (checkAuth decode [(authKey (hexEncode bs), ⟨val, ea⟩)] now
        (upperStr (hexEncode bs))).1 = .ok AuthResp.expired) ∧
    (∀ (decode : String → Option AuthResp) (val : String) (ea now : Int),
      now < ea →
      (checkAuth decode [(authKey (hexEncode bs), ⟨val, ea⟩)] now
        (hexEncode bs)).1 ≠ .ok AuthResp.expired) := by
  have hnib : ∀ b ∈ bs, b / 16 ≤ 15 ∧ b % 16 ≤ 15 := by
    intro b hb
    have := hbytes b hb
    omega
  have hmatch : authIDMatch (hexEncode bs) = true := by
    rw [authIDMatch]
    simp only [Bool.and_eq_true, beq_iff_eq]
    refine ⟨by rw [hexEncode_length, hlen], ?_⟩
    rw [List.all_eq_true]
    intro c hc
    obtain ⟨b, hb, hcase⟩ := hexEncode_chars hc
    rcases hcase with rfl | rfl
    · exact hexDigitChar_isHex (hnib b hb).1
    · exact hexDigitChar_isHex (hnib b hb).2
  have hupmatch : authIDMatch (upperStr (hexEncode bs)) = true := by
    rw [authIDMatch]
    simp only [Bool.and_eq_true, beq_iff_eq]
    constructor
    · show (upperStr (hexEncode bs)).data.length = 32
      show ((hexEncode bs).data.map upperChar).length = 32
      rw [List.length_map]
      have := hexEncode_length bs
      rw [hlen] at this
      exact this
    · rw [List.all_eq_true]
      intro c hc
      have hc' : c ∈ (hexEncode bs).data.map upperChar := hc
      obtain ⟨c0, hc0, rfl⟩ := List.mem_map.mp hc'
      obtain ⟨b, hb, hcase⟩ := hexEncode_chars hc0
      rcases hcase with rfl | rfl
      · exact hexDigitChar_upper_isHex (hnib b hb).1
      · exact hexDigitChar_upper_isHex (hnib b hb).2
  have hne : upperStr (hexEncode bs) ≠ hexEncode bs := by
    intro heq
    have hdata : (hexEncode bs).data.map upperChar = (hexEncode bs).data :=
      congrArg String.data heq
    obtain ⟨b, hb, hcase⟩ := hletter
    rcases hcase with hhi | hlo
    · have hmem := (hexEncode_mem hb).1
      have := map_eq_self_mem hdata _ hmem
      exact hexDigitChar_upper_ne hhi (hnib b hb).1 this
    · have hmem := (hexEncode_mem hb).2
      have := map_eq_self_mem hdata _ hmem
      exact hexDigitChar_upper_ne hlo (hnib b hb).2 this
  have hkeyne : authKey (upperStr (hexEncode bs)) ≠ authKey (hexEncode bs) := by
    intro heq
    apply hne
    have hdata : ("auth:" ++ upperStr (hexEncode bs)).data =
        ("auth:" ++ hexEncode bs).data := congrArg String.data heq
    have hdata' : "auth:".data ++ (upperStr (hexEncode bs)).data =
        "auth:".data ++ (hexEncode bs).data := hdata
    have := List.append_cancel_left hdata'
    exact congrArg String.mk this
  refine ⟨hmatch, hupmatch, hne, hkeyne, ?_, ?_⟩
  · intro decode val ea now
    rw [checkAuth, if_neg (by simp [hupmatch])]
    have hget : sget (authKey (upperStr (hexEncode bs)))
        [(authKey (hexEncode bs), ⟨val, ea⟩)] = none := by
      rw [sget, if_neg (fun h => hkeyne h.symm)]
      rfl
    simp [memGet, hget]
  · intro decode val ea now hlive
    rw [checkAuth, if_neg (by simp [hmatch])]
    have hget : sget (authKey (hexEncode bs))
        [(authKey (hexEncode bs), ⟨val, ea⟩)] = some ⟨val, ea⟩ := by
      rw [sget, if_pos rfl]
    have hmg : (memGet [(authKey (hexEncode bs), ⟨val, ea⟩)] now
        (authKey (hexEncode bs))).1 = (val, true) := by
      have hnot : ¬ (ea ≤ now) := by omega
      simp [memGet, hget, hnot]
    simp only [hmg, not_true, if_false]
    rcases hd : decode val with _ | r
    · simp [AuthResp.waiting, AuthResp.expired]
    · by_cases hv : r.status = "verified"
      · simp only [hv, if_true]
        intro h
        simp only [Except.ok.injEq] at h
        rw [h] at hv
        simp [AuthResp.expired] at hv
      · simp only [hv, if_false]
        simp [AuthResp.waiting, AuthResp.expired]

/-- Witness for C10 at concrete random bytes containing a letter nibble. -/
theorem C10_uppercase_variant_misses_witness :
    authIDMatch (hexEncode [171, 1, 2, 3, 4, 5, 6, 7, 8, 9, 10, 11, 12, 13, 14, 15]) = true ∧
    upperStr (hexEncode [171, 1, 2, 3, 4, 5, 6, 7, 8, 9, 10, 11, 12, 13, 14, 15]) ≠
      hexEncode [171, 1, 2, 3, 4, 5, 6, 7, 8, 9, 10, 11, 12, 13, 14, 15] ∧
    (checkAuth decodeAuthJSON
      [(authKey (hexEncode [171, 1, 2, 3, 4, 5, 6, 7, 8, 9, 10, 11, 12, 13, 14, 15]),
        ⟨"v", 100⟩)] 0
      (upperStr (hexEncode [171, 1, 2, 3, 4, 5, 6, 7, 8, 9, 10, 11, 12, 13, 14, 15]))).1 =
      .ok AuthResp.expired := by
  have h := @C10_uppercase_variant_misses
    [171, 1, 2, 3, 4, 5, 6, 7, 8, 9, 10, 11, 12, 13, 14, 15]
    (by decide) (by decide) (by decide)
  exact ⟨h.1, h.2.2.1, h.2.2.2.2.1 decodeAuthJSON "v" 100 0⟩

lemma takeWhile_append_all {p : Nat → Bool} {d : List Nat}
    (h : d.all p = true) (r : List Nat) :
    (d ++ r).takeWhile p = d ++ r.takeWhile p := by
  induction d with
  | nil => simp
  | cons a t ih =>
    simp only [List.all_cons, Bool.and_eq_true] at h
    simp only [List.cons_append, List.takeWhile_cons, h.1, if_true]
    rw [ih h.2]

lemma tryPhoneLen_sound {s : List Nat} :
    ∀ {n : Nat} {p d : List Nat}, tryPhoneLen s n = some (p, d) →
      ∃ r, s = p ++ 64 :: (d ++ r) ∧ p.all isDigitDash = true ∧
        9 ≤ p.length ∧ p.length ≤ n ∧ d ≠ [] ∧ d.all isDomainB = true := by
  intro n
  induction n with
  | zero => intro p d h; simp [tryPhoneLen] at h
  | succ m ih =>
    intro p d h
    rw [tryPhoneLen] at h
    by_cases hlt : m + 1 < 9
    · rw [if_pos hlt] at h; simp at h
    · rw [if_neg hlt] at h
      by_cases hcond : (s.take (m + 1)).length = m + 1 ∧
          (s.take (m + 1)).all isDigitDash = true ∧
          (s.drop (m + 1)).head? = some 64
      · rw [if_pos hcond] at h
        by_cases hdom : ((s.drop (m + 2)).takeWhile isDomainB) ≠ []
        · rw [if_pos hdom] at h
          simp only [Option.some_inj, Prod.mk.injEq] at h
          obtain ⟨rfl, rfl⟩ := h
          obtain ⟨hlen, hall, hhd⟩ := hcond
          refine ⟨(s.drop (m + 2)).dropWhile isDomainB, ?_, hall,
            by omega, by omega, hdom, ?_⟩
          · have hsplit : s = s.take (m + 1) ++ s.drop (m + 1) :=
              (List.take_append_drop (m + 1) s).symm
            have hstep : s.drop (m + 2) = (s.drop (m + 1)).drop 1 := by
              rw [List.drop_drop]
            have hdrop : s.drop (m + 1) = 64 :: s.drop (m + 2) := by
              cases hD : s.drop (m + 1) with
              | nil => rw [hD] at hhd; simp at hhd
              | cons b t =>
                rw [hD] at hhd
                simp only [List.head?_cons, Option.some_inj] at hhd
                subst hhd
                rw [hstep, hD]
                rfl
            rw [List.takeWhile_append_dropWhile]
            rw [← hdrop]
            exact hsplit
          · rw [List.all_eq_true]
            intro x hx
            exact List.mem_takeWhile_imp hx
        · rw [if_neg hdom] at h
          obtain ⟨r, h1, h2, h3, h4, h5, h6⟩ := ih h
          exact ⟨r, h1, h2, h3, by omega, h5, h6⟩
      · rw [if_neg hcond] at h
        obtain ⟨r, h1, h2, h3, h4, h5, h6⟩ := ih h
        exact ⟨r, h1, h2, h3, by omega, h5, h6⟩

lemma tryPhoneLen_complete {p d r : List Nat}
    (hall : p.all isDigitDash = true) (h9 : 9 ≤ p.length)
    (hd : d ≠ []) (hdall : d.all isDomainB = true) :
    ∀ {n : Nat}, p.length ≤ n → n ≤ 13 →
      (tryPhoneLen (p ++ 64 :: (d ++ r)) n).isSome := by
  intro n
  induction n with
  | zero => intro h1 _; omega
  | succ m ih =>
    intro hle h13
    rw [tryPhoneLen, if_neg (by omega)]
    by_cases heq : p.length = m + 1
    · have htake : (p ++ 64 :: (d ++ r)).take (m + 1) = p := by
        rw [← heq]
        exact List.take_left p _
      have hdrop : (p ++ 64 :: (d ++ r)).drop (m + 1) = 64 :: (d ++ r) := by
        rw [← heq]
        exact List.drop_left p _
      have hdrop2 : (p ++ 64 :: (d ++ r)).drop (m + 2) = d ++ r := by
        have hstep : (p ++ 64 :: (d ++ r)).drop (m + 2) =
            ((p ++ 64 :: (d ++ r)).drop (m + 1)).drop 1 := by
          rw [List.drop_drop]
        rw [hstep, hdrop]
        rfl
      rw [if_pos ⟨by rw [htake, heq], by rw [htake]; exact hall,
        by rw [hdrop]; rfl⟩]
      rw [if_pos (by
        rw [hdrop2, takeWhile_append_all hdall]
        intro hcontra
        rcases d with _ | ⟨a, t⟩
        · exact hd rfl
        · simp at hcontra)]
      simp
    · have hplt : p.length ≤ m := by omega
      have hcondfail : ¬ (((p ++ 64 :: (d ++ r)).take (m + 1)).length = m + 1 ∧
          ((p ++ 64 :: (d ++ r)).take (m + 1)).all isDigitDash = true ∧
          ((p ++ 64 :: (d ++ r)).drop (m + 1)).head? = some 64) := by
        rintro ⟨hlen, hall', _⟩
        have htk : (p ++ 64 :: (d ++ r)).take (m + 1) =
            p ++ (64 :: (d ++ r)).take (m + 1 - p.length) := by
          rw [List.take_append_eq_append_take, List.take_of_length_le (by omega)]
        have hpos : 1 ≤ m + 1 - p.length := by omega
        have : (64 :: (d ++ r)).take (m + 1 - p.length) =
            64 :: (d ++ r).take (m + 1 - p.length - 1) := by
          cases hmp : m + 1 - p.length with
          | zero => omega
          | succ q => simp
        rw [this] at htk
        rw [htk] at hall'
        simp only [List.all_append, List.all_cons, Bool.and_eq_true] at hall'
        have : isDigitDash 64 = true := hall'.2.1
        simp [isDigitDash, isDigitB] at this
      rw [if_neg hcondfail]
      exact ih hplt (by omega)

lemma findPhoneMatch_sound {s p d : List Nat}
    (h : findPhoneMatch s = some (p, d)) :
    ∃ u r, s = u ++ p ++ 64 :: (d ++ r) ∧ p.all isDigitDash = true ∧
      9 ≤ p.length ∧ p.length ≤ 13 ∧ d ≠ [] ∧ d.all isDomainB = true := by
  induction s with
  | nil => simp [findPhoneMatch] at h
  | cons b t ih =>
    rw [findPhoneMatch] at h
    cases ht : tryPhoneAt (b :: t) with
    | some m =>
      rw [ht] at h
      simp only [Option.some_inj] at h
      subst h
      obtain ⟨r, h1, h2, h3, h4, h5, h6⟩ := tryPhoneLen_sound ht
      exact ⟨[], r, by simpa using h1, h2, h3, h4, h5, h6⟩
    | none =>
      rw [ht] at h
      obtain ⟨u, r, h1, h2, h3, h4, h5, h6⟩ := ih h
      exact ⟨b :: u, r, by rw [List.cons_append, List.cons_append, ← h1], h2,
        h3, h4, h5, h6⟩

lemma findPhoneMatch_complete {s : List Nat} (h : ContainsPhonePat s) :
    (findPhoneMatch s).isSome := by
  obtain ⟨u, p, d, r, hs, hall, h9, h13, hd, hdall⟩ := h
  subst hs
  induction u with
  | nil =>
    simp only [List.nil_append]
    have hw : (tryPhoneAt (p ++ 64 :: (d ++ r))).isSome :=
      tryPhoneLen_complete hall h9 hd hdall h13 (by omega)
    rcases hp : p with _ | ⟨a, t⟩
    · rw [hp] at h9; simp at h9
    · subst hp
      simp only [List.cons_append]
      rw [findPhoneMatch]
      rw [List.cons_append] at hw
      cases ht : tryPhoneAt (a :: (t ++ 64 :: (d ++ r))) with
      | some m => simp
      | none =>
        exfalso
        rw [ht] at hw
        simp at hw
  | cons a u' ih =>
    have hgoal : (a :: u') ++ p ++ 64 :: (d ++ r) =
        a :: (u' ++ p ++ 64 :: (d ++ r)) := by simp
    rw [hgoal, findPhoneMatch]
    cases ht : tryPhoneAt (a :: (u' ++ p ++ 64 :: (d ++ r))) with
    | some m => simp
    | none => exact ih

lemma trimSpace_all_space {s : List Nat} (h : trimSpace s = []) :
    ∀ b ∈ s, isSpaceB b = true := by
  intro b hb
  rw [trimSpace, trimRightWhile] at h
  have h1 : (s.dropWhile isSpaceB).reverse.dropWhile isSpaceB = [] := by
    have := congrArg List.reverse h
    simpa using this
  rw [List.dropWhile_eq_nil_iff] at h1
  have h2 : ∀ x ∈ s.dropWhile isSpaceB, isSpaceB x = true := by
    intro x hx
    exact h1 x (List.mem_reverse.mpr hx)
  rcases List.mem_append.mp
    (by rw [List.takeWhile_append_dropWhile]; exact hb :
      b ∈ s.takeWhile isSpaceB ++ s.dropWhile isSpaceB) with hL | hR
  · exact List.mem_takeWhile_imp hL
  · exact h2 b hR

/-- **C9.** For every `from` address containing a substring of 9 to 13
digits-and-dashes followed by `@` and a domain, `ExtractPhoneAndCarrier`
returns the matched digit group with non-digits stripped together with the
carrier-table lookup of the lowercased matched domain (SKT for
`vmms.nate.com`, KT for `mms.kt.co.kr`, LGU+ for `mmsmail.uplus.co.kr`,
nothing for unknown domains); blank or non-matching input returns both
empty. -/
theorem C9_extractPhoneAndCarrier_correct (s : List Nat) :
    (ContainsPhonePat s →
      ∃ p d, findPhoneMatch s = some (p, d) ∧
        p.all isDigitDash = true ∧ 9 ≤ p.length ∧ p.length ≤ 13 ∧
        d ≠ [] ∧ d.all isDomainB = true ∧
        extractPhoneAndCarrier s =
          (some (normalizeDigits p), carrierLookup (toLowerL d))) ∧
    ((trimSpace s = [] ∨ ¬ ContainsPhonePat s) →
      extractPhoneAndCarrier s = (none, none)) ∧
    carrierLookup (strB "vmms.nate.com") = some (strB "SKT") ∧
    carrierLookup (strB "mms.kt.co.kr") = some (strB "KT") ∧
    carrierLookup (strB "mmsmail.uplus.co.kr") = some (strB "LGU+") ∧
    (∀ d, d ≠ strB "vmms.nate.com" → d ≠ strB "mms.kt.co.kr" →
      d ≠ strB "mmsmail.uplus.co.kr" → carrierLookup d = none) := by
  refine ⟨?_, ?_, by decide, by decide, by decide, ?_⟩
  · intro hc
    have hsome := findPhoneMatch_complete hc
    cases hm : findPhoneMatch s with
    | none => rw [hm] at hsome; simp at hsome
    | some pd =>
      rcases pd with ⟨p, d⟩
      obtain ⟨u, r, hs, hall, h9, h13, hd, hdall⟩ := findPhoneMatch_sound hm
      have htrim : trimSpace s ≠ [] := by
        intro htr
        rcases hp : p with _ | ⟨a, t⟩
        · rw [hp] at h9; simp at h9
        · have hmem : a ∈ s := by
            rw [hs, hp]
            simp
          have hsp := trimSpace_all_space htr a hmem
          have hdd : isDigitDash a = true := by
            rw [hp] at hall
            simp only [List.all_cons, Bool.and_eq_true] at hall
            exact hall.1
          simp only [isDigitDash, isDigitB, Bool.or_eq_true, Bool.and_eq_true,
            decide_eq_true_eq, beq_iff_eq] at hdd
          simp only [isSpaceB, Bool.or_eq_true, Bool.and_eq_true,
            decide_eq_true_eq, beq_iff_eq] at hsp
          omega
      refine ⟨p, d, rfl, hall, h9, h13, hd, hdall, ?_⟩
      rw [extractPhoneAndCarrier, if_neg htrim, hm]
      cases hcl : carrierLookup (toLowerL d) <;> simp [hcl]
  · rintro (htr | hnc)
    · rw [extractPhoneAndCarrier, if_pos htr]
    · rw [extractPhoneAndCarrier]
      by_cases htr : trimSpace s = []
      · rw [if_pos htr]
      · rw [if_neg htr]
        cases hm : findPhoneMatch s with
        | none => rfl
        | some pd =>
          exfalso
          rcases pd with ⟨p, d⟩
          obtain ⟨u, r, hs, hall, h9, h13, hd, hdall⟩ := findPhoneMatch_sound hm
          exact hnc ⟨u, p, d, r, hs, hall, h9, h13, hd, hdall⟩
  · intro d h1 h2 h3
    rw [carrierLookup, if_neg h1, if_neg ?_, if_neg h2]
    exact h3

/-- Witness for C9 on the carrier test vectors. -/
theorem C9_extractPhoneAndCarrier_correct_witness :
    extractPhoneAndCarrier (strB "010-1234-5678@mms.kt.co.kr") =
      (some (strB "01012345678"), some (strB "KT")) ∧
    extractPhoneAndCarrier (strB "  ") = (none, none) := by
  have h := C9_extractPhoneAndCarrier_correct (strB "010-1234-5678@mms.kt.co.kr")
  have hc : ContainsPhonePat (strB "010-1234-5678@mms.kt.co.kr") :=
    ⟨[], strB "010-1234-5678", strB "mms.kt.co.kr", [], by decide, by decide,
      by decide, by decide, by decide, by decide⟩
  obtain ⟨p, d, hf, _, _, _, _, _, he⟩ := h.1 hc
  have heval : findPhoneMatch (strB "010-1234-5678@mms.kt.co.kr") =
      some (strB "010-1234-5678", strB "mms.kt.co.kr") := by decide
  rw [heval] at hf
  simp only [Option.some_inj, Prod.mk.injEq] at hf
  obtain ⟨hp, hd⟩ := hf
  constructor
  · rw [he, ← hp, ← hd]
    decide
  · exact (C9_extractPhoneAndCarrier_correct (strB "  ")).2.1 (Or.inl (by decide))

/-- **C3 counterexample.** The legacy fallback path and the streaming
scanner disagree on a well-formed message: on `cexMsg` both extract the
same `From` value, but the legacy path's base64 reinterpretation of the
raw body reports a nonce while the streaming scanner reports none. -/
theorem C3_counterexample :
    streamExtractHeaderFromAndNonce cexMsg = some (strB "a@b", []) ∧
    headerFromOf cexMsg = strB "a@b" ∧
    findNonceWithFallback (parseBody cexMsg).1 (splitHeaderBody cexMsg).2 =
      List.replicate 64 100 ∧
    List.replicate 64 100 ≠ ([] : List Nat) := by decide

lemma splitN2_first {sep : Nat} :
    ∀ {w : List Nat} (r : List Nat), (∀ b ∈ w, b ≠ sep) →
      splitN2 sep (w ++ sep :: r) = some (w, r) := by
  intro w
  induction w with
  | nil => intro r _; simp [splitN2]
  | cons b t ih =>
    intro r h
    rw [List.cons_append, splitN2,
      if_neg (h b (List.mem_cons_self b t)), ih r
        (fun x hx => h x (List.mem_cons_of_mem b hx))]
    rfl

lemma splitOnBAux_no_sep {sep : Nat} :
    ∀ {l : List Nat} (acc : List Nat), (∀ b ∈ l, b ≠ sep) →
      splitOnBAux sep l acc = [acc.reverse ++ l] := by
  intro l
  induction l with
  | nil => intro acc _; simp [splitOnBAux]
  | cons b t ih =>
    intro acc h
    rw [splitOnBAux, if_neg (h b (List.mem_cons_self b t)),
      ih (b :: acc) (fun x hx => h x (List.mem_cons_of_mem b hx))]
    simp

lemma dropWhile_of_forall_false {p : Nat → Bool} :
    ∀ {l : List Nat}, (∀ b ∈ l, p b = false) → l.dropWhile p = l := by
  intro l h
  cases l with
  | nil => rfl
  | cons b t =>
    rw [List.dropWhile_cons, if_neg (by simp [h b (List.mem_cons_self b t)])]

lemma trimRightWhile_of_forall_false {p : Nat → Bool} {l : List Nat}
    (h : ∀ b ∈ l, p b = false) : trimRightWhile p l = l := by
  rw [trimRightWhile, dropWhile_of_forall_false
    (fun b hb => h b (List.mem_reverse.mp hb))]
  simp

lemma trimSpace_of_no_space {l : List Nat}
    (h : ∀ b ∈ l, isSpaceB b = false) : trimSpace l = l := by
  rw [trimSpace, dropWhile_of_forall_false h, trimRightWhile_of_forall_false h]

lemma dropWhile_congr' {p q : Nat → Bool} :
    ∀ {l : List Nat}, (∀ b ∈ l, p b = q b) → l.dropWhile p = l.dropWhile q := by
  intro l
  induction l with
  | nil => intro _; rfl
  | cons b t ih =>
    intro h
    rw [List.dropWhile_cons, List.dropWhile_cons,
      h b (List.mem_cons_self b t)]
    by_cases hq : q b = true
    · rw [if_pos hq, if_pos hq]
      exact ih (fun x hx => h x (List.mem_cons_of_mem b hx))
    · rw [if_neg hq, if_neg hq]

lemma trimSpace_ne_nil_of_mem {l : List Nat} {b : Nat} (hb : b ∈ l)
    (hns : isSpaceB b = false) : trimSpace l ≠ [] := by
  intro h
  rw [trimSpace_all_space h b hb] at hns
  cases hns

lemma firstToken_props {l ds : List Nat} (h : firstToken l = some ds) :
    ds.length = 64 ∧ ds.all isHexB = true ∧ 91 ∈ l := by
  obtain ⟨u, r, heq, hr, _⟩ := firstToken_decomp h
  obtain ⟨c1, c2, c3, c4, c5, v, _, hhex, hlen, hrdec⟩ := tokenPrefix_inv hr
  refine ⟨hlen, hhex, ?_⟩
  rw [heq, hrdec, tokBytes]
  simp

lemma decodeASCII_of_ascii {l : List Nat} (h : l.all (fun b => b < 128) = true) :
    decodeASCII l = l := by
  rw [decodeASCII, List.filter_eq_self]
  intro b hb
  rw [List.all_eq_true] at h
  simpa using h b hb

lemma tpLoopF_step_header (fuel : Nat) (n v rest : List Nat)
    (acc : List (List Nat × List Nat)) (hn : n ≠ [])
    (hnall : n.all (fun b => 32 < b && b < 128 && b != 58) = true)
    (hvall : v.all (fun b => 32 ≤ b && b < 128) = true) :
    tpLoopF (fuel + 1) ((n ++ 58 :: (v ++ [13])) ++ 10 :: rest) acc =
      tpLoopF fuel rest
        ((toLowerL n, v.dropWhile (fun b => b == 32 || b == 9)) :: acc) := by
  rw [List.all_eq_true] at hnall hvall
  have h10 : ∀ b ∈ n ++ 58 :: (v ++ [13]), b ≠ 10 := by
    intro b hb
    rcases List.mem_append.mp hb with hbn | hbr
    · have := hnall b hbn
      simp only [Bool.and_eq_true, decide_eq_true_eq, bne_iff_ne] at this
      omega
    · rcases List.mem_cons.mp hbr with rfl | hbv
      · omega
      · rcases List.mem_append.mp hbv with hbv | hbe
        · have := hvall b hbv
          simp only [Bool.and_eq_true, decide_eq_true_eq] at this
          omega
        · simp only [List.mem_singleton] at hbe
          omega
  have hassoc : n ++ 58 :: (v ++ [13]) = (n ++ 58 :: v) ++ [13] := by simp
  simp only [tpLoopF, splitN2_first _ h10]
  rw [hassoc, List.getLast?_concat, List.dropLast_concat]
  simp only [if_pos rfl, if_true]
  rcases hcn : n with _ | ⟨a, nt⟩
  · exact absurd hcn hn
  · have hbig : 32 < a := by
      have := hnall a (by rw [hcn]; exact List.mem_cons_self a nt)
      simp only [Bool.and_eq_true, decide_eq_true_eq] at this
      omega
    rw [← hcn]
    have hne : ¬ (n ++ 58 :: v = []) := by
      rw [hcn]
      simp
    rw [if_neg hne]
    have hhead : (n ++ 58 :: v).head? = some a := by
      rw [hcn]
      rfl
    rw [if_neg (by
      rw [hhead]
      rintro (h | h) <;> simp only [Option.some_inj] at h <;> omega)]
    have h58 : ∀ b ∈ n, b ≠ 58 := by
      intro b hb
      have := hnall b hb
      simp only [Bool.and_eq_true, decide_eq_true_eq, bne_iff_ne] at this
      exact this.2
    have hklast : ¬ (n = [] ∨ n.getLast? = some 32) := by
      rintro (h | h)
      · exact hn h
      · have hmem := List.mem_of_mem_getLast? h
        have := hnall 32 hmem
        simp at this
    simp only [splitN2_first _ h58, if_neg hklast]

lemma tpLoopF_step_blank (fuel : Nat) (body : List Nat)
    (acc : List (List Nat × List Nat)) :
    tpLoopF (fuel + 1) (13 :: 10 :: body) acc = some (acc.reverse, body) := by
  have hsp : splitN2 10 (13 :: 10 :: body) = some ([13], body) := by
    simp [splitN2]
  simp only [tpLoopF, hsp]
  rfl

/-- `textproto.ReadMIMEHeader` on a `simpleMsg`. -/
lemma textproto_simple {nF vF body : List Nat} (h : SimpleWF nF vF body) :
    textprotoHeaders (simpleMsg nF vF body) =
      some ([(strB "from", vF.dropWhile (fun b => b == 32 || b == 9))], body) := by
  obtain ⟨hn, hnall, hlow, hvall, _, _⟩ := h
  have hshape : simpleMsg nF vF body =
      (nF ++ 58 :: (vF ++ [13])) ++ 10 :: (13 :: 10 :: body) := by
    simp [simpleMsg]
  rw [textprotoHeaders, hshape,
    tpLoopF_step_header _ nF vF (13 :: 10 :: body) [] hn hnall hvall]
  have hlen : ((nF ++ 58 :: (vF ++ [13])) ++ 10 :: (13 :: 10 :: body)).length =
      (nF.length + vF.length + 4 + body.length) + 1 := by
    simp
    omega
  rw [hlen, tpLoopF_step_blank, hlow]
  rfl

lemma hasPrefixL_nil (l : List Nat) : hasPrefixL l [] = true := by
  cases l <;> rfl

lemma splitAtSeq_crlf2 :
    ∀ {w : List Nat} (r : List Nat), (∀ b ∈ w, b ≠ 13) →
      splitAtSeq [13, 10, 13, 10] (w ++ 13 :: 10 :: 13 :: 10 :: r) =
        some (w, r) := by
  intro w
  induction w with
  | nil =>
    intro r _
    rw [List.nil_append, splitAtSeq,
      if_pos (by simp [hasPrefixL, hasPrefixL_nil])]
    rfl
  | cons b t ih =>
    intro r h
    rw [List.cons_append, splitAtSeq,
      if_neg (by
        have hb : b ≠ 13 := h b (List.mem_cons_self b t)
        simp only [hasPrefixL, Bool.and_eq_true, beq_iff_eq]
        rintro ⟨h13, -⟩
        exact hb h13),
      ih r (fun x hx => h x (List.mem_cons_of_mem b hx))]
    rfl

lemma splitHeaderBody_simple {nF vF body : List Nat}
    (h : SimpleWF nF vF body) :
    splitHeaderBody (simpleMsg nF vF body) = (nF ++ 58 :: vF, body) := by
  obtain ⟨-, hnall, -, hvall, -, -⟩ := h
  rw [List.all_eq_true] at hnall hvall
  have h13 : ∀ b ∈ nF ++ 58 :: vF, b ≠ 13 := by
    intro b hb
    rcases List.mem_append.mp hb with hbn | hbr
    · have := hnall b hbn
      simp only [Bool.and_eq_true, decide_eq_true_eq, bne_iff_ne] at this
      omega
    · rcases List.mem_cons.mp hbr with rfl | hbv
      · omega
      · have := hvall b hbv
        simp only [Bool.and_eq_true, decide_eq_true_eq] at this
        omega
  have hshape : simpleMsg nF vF body =
      (nF ++ 58 :: vF) ++ 13 :: 10 :: 13 :: 10 :: body := by
    simp [simpleMsg]
  rw [splitHeaderBody, hshape, splitAtSeq_crlf2 body h13]

lemma parseHeaders_simple {nF vF body : List Nat} (h : SimpleWF nF vF body) :
    parseHeaders (nF ++ 58 :: vF) = [(strB "from", trimSpace vF)] := by
  obtain ⟨hn, hnall, hlow, hvall, -, -⟩ := h
  rw [List.all_eq_true] at hnall hvall
  have hnfacts : ∀ b ∈ nF, 32 < b ∧ b < 128 ∧ b ≠ 58 := by
    intro b hb
    have := hnall b hb
    simp only [Bool.and_eq_true, decide_eq_true_eq, bne_iff_ne] at this
    exact ⟨this.1.1, this.1.2, this.2⟩
  have hvfacts : ∀ b ∈ vF, 32 ≤ b ∧ b < 128 := by
    intro b hb
    have := hvall b hb
    simp only [Bool.and_eq_true, decide_eq_true_eq] at this
    exact this
  have h10 : ∀ b ∈ nF ++ 58 :: vF, b ≠ 10 := by
    intro b hb
    rcases List.mem_append.mp hb with hbn | hbr
    · have := hnfacts b hbn; omega
    · rcases List.mem_cons.mp hbr with rfl | hbv
      · omega
      · have := hvfacts b hbv; omega
  have h13 : ∀ b ∈ nF ++ 58 :: vF, (b == 13) = false := by
    intro b hb
    simp only [beq_eq_false_iff_ne]
    rcases List.mem_append.mp hb with hbn | hbr
    · have := hnfacts b hbn; omega
    · rcases List.mem_cons.mp hbr with rfl | hbv
      · omega
      · have := hvfacts b hbv; omega
  have hsplit : splitOnB 10 (nF ++ 58 :: vF) = [nF ++ 58 :: vF] := by
    rw [splitOnB, splitOnBAux_no_sep [] h10]
    simp
  have hline : trimRightWhile (· == 13) (nF ++ 58 :: vF) = nF ++ 58 :: vF :=
    trimRightWhile_of_forall_false h13
  have hne : trimSpace (nF ++ 58 :: vF) ≠ [] :=
    trimSpace_ne_nil_of_mem (l := nF ++ 58 :: vF) (b := 58) (by simp)
      (by decide)
  have hn58 : ∀ b ∈ nF, b ≠ 58 := fun b hb => (hnfacts b hb).2.2
  have hnsp : ∀ b ∈ nF, isSpaceB b = false := by
    intro b hb
    have := hnfacts b hb
    simp only [isSpaceB, Bool.or_eq_false_iff, beq_eq_false_iff_ne,
      Bool.and_eq_false_iff, decide_eq_false_iff_not]
    exact ⟨by omega, Or.inr (by omega)⟩
  have htsn : trimSpace nF = nF := trimSpace_of_no_space hnsp
  rw [parseHeaders, hsplit]
  obtain ⟨a, t, rfl⟩ := List.exists_cons_of_ne_nil hn
  have hahead : 32 < a := (hnfacts a (List.mem_cons_self a t)).1
  rw [parseHeadersLoop]
  simp only [hline]
  rw [if_neg hne]
  rw [if_neg (by
    have hhd : ((a :: t) ++ 58 :: vF).head? = some a := rfl
    rintro (hh | hh) <;>
      · rw [hhd] at hh
        simp only [Option.some_inj] at hh
        omega)]
  simp only [splitN2_first vF hn58, htsn, hlow, hdrGet, hdrSet,
    parseHeadersLoop]

lemma decodeTransfer_nil (body : List Nat) : decodeTransfer body [] = body := by
  simp only [decodeTransfer]
  rw [if_neg (by decide), if_neg (by decide)]

lemma extractTextFromBody_plain (fuel : Nat) (body vv : List Nat) :
    extractTextFromBody (fuel + 1) body [(strB "from", vv)] =
      decodeASCII body := by
  have hct : hdrGetD [(strB "from", vv)] (strB "content-type") = [] := by
    rw [hdrGetD, hdrGet, if_neg (by decide)]
    rfl
  have hcte : hdrGetD [(strB "from", vv)]
      (strB "content-transfer-encoding") = [] := by
    rw [hdrGetD, hdrGet, if_neg (by decide)]
    rfl
  have hpct : parseContentType [] = ([], []) := rfl
  rw [extractTextFromBody]
  simp only [hct, hcte, hpct, decodeTransfer_nil]
  rw [if_neg (by decide), if_pos (Or.inr trivial)]

lemma dropWhile_idem (p : Nat → Bool) :
    ∀ l : List Nat, (l.dropWhile p).dropWhile p = l.dropWhile p := by
  intro l
  induction l with
  | nil => rfl
  | cons b t ih =>
    rw [List.dropWhile_cons]
    by_cases hb : p b = true
    · rw [if_pos hb]
      exact ih
    · rw [if_neg hb, List.dropWhile_cons, if_neg hb]

lemma trimSpace_dropWs {vF : List Nat}
    (hvall : vF.all (fun b => 32 ≤ b && b < 128) = true) :
    trimSpace (vF.dropWhile (fun b => b == 32 || b == 9)) = trimSpace vF := by
  rw [List.all_eq_true] at hvall
  have hcongr : vF.dropWhile (fun b => b == 32 || b == 9) =
      vF.dropWhile isSpaceB := by
    apply dropWhile_congr'
    intro b hb
    have := hvall b hb
    simp only [Bool.and_eq_true, decide_eq_true_eq] at this
    by_cases hb32 : b = 32
    · subst hb32; decide
    · have e1 : (b == 9) = false := by
        simp only [beq_eq_false_iff_ne]; omega
      have e2 : (b == 32) = false := by
        simp only [beq_eq_false_iff_ne]; omega
      have e3 : isSpaceB b = false := by
        simp only [isSpaceB, Bool.or_eq_false_iff, Bool.and_eq_false_iff,
          decide_eq_false_iff_not]
        exact ⟨by simpa using hb32, Or.inr (by omega)⟩
      rw [e1, e2, e3]
      rfl
  rw [hcongr, trimSpace, dropWhile_idem isSpaceB vF]
  rfl

lemma parseBody_simple {nF vF body : List Nat} (h : SimpleWF nF vF body) :
    parseBody (simpleMsg nF vF body) =
      ((if body = [] then decodeASCII (simpleMsg nF vF body) else body),
        [(strB "from", trimSpace vF)]) := by
  have hascii := h.2.2.2.2.1
  rw [parseBody]
  simp only [splitHeaderBody_simple h, parseHeaders_simple h]
  rw [show extractTextFromBody 6 body [(strB "from", trimSpace vF)] =
      decodeASCII body from extractTextFromBody_plain 5 body (trimSpace vF),
    decodeASCII_of_ascii hascii]

lemma findNonce_firstToken {body ds : List Nat}
    (hft : firstToken body = some ds) : findNonce body = ds := by
  obtain ⟨hlen, hhex, hmem⟩ := firstToken_props hft
  have hne : trimSpace body ≠ [] :=
    trimSpace_ne_nil_of_mem hmem (by decide)
  have hval : isValidNonce ds = true := by
    rw [isValidNonce, hlen, hhex]
    decide
  rw [findNonce, if_neg hne]
  simp [hft, hval]

lemma findNWF_firstToken {body ds : List Nat}
    (hft : firstToken body = some ds) :
    findNonceWithFallback body body = ds := by
  have h1 : findNonce body = ds := findNonce_firstToken hft
  have hdne : ds ≠ [] := by
    have := (firstToken_props hft).1
    intro hd
    rw [hd] at this
    simp at this
  simp only [findNonceWithFallback, h1]
  rw [if_pos hdne]

lemma scanLeafBody_plain (body : List Nat) :
    scanLeafBody body [] initScan = scanList initScan body := by
  simp only [scanLeafBody]
  rw [if_neg (by decide), if_neg (by decide), if_neg (by decide)]

lemma scanEntity_plain (body vv : List Nat) :
    scanEntity 6 body [(strB "from", vv)] initScan =
      some (scanList initScan body) := by
  have hct : tpGetD [(strB "from", vv)] (strB "content-type") = [] := by
    rw [tpGetD, if_neg (by decide)]
    rfl
  have hcte : tpGetD [(strB "from", vv)]
      (strB "content-transfer-encoding") = [] := by
    rw [tpGetD, if_neg (by decide)]
    rfl
  have hpm : parseMediaTypeModel [] = none := rfl
  show scanEntity (5 + 1) body [(strB "from", vv)] initScan = _
  rw [scanEntity]
  simp only [hct, hcte, hpm]
  rw [if_neg (by decide), scanLeafBody_plain]

lemma streamExtract_simple {nF vF body : List Nat} (h : SimpleWF nF vF body) :
    streamExtractHeaderFromAndNonce (simpleMsg nF vF body) =
      some (trimSpace vF, (firstToken body).getD []) := by
  have hvall := h.2.2.2.1
  rw [streamExtractHeaderFromAndNonce, textproto_simple h]
  have htp : tpGetD [(strB "from",
      vF.dropWhile (fun b => b == 32 || b == 9))] (strB "from") =
      vF.dropWhile (fun b => b == 32 || b == 9) := by
    rw [tpGetD, if_pos (by decide)]
  simp only [htp, scanEntity_plain]
  rw [scanList_eq_foldl, scanFold_eq_firstToken, trimSpace_dropWs hvall]

lemma headerFromOf_simple {nF vF body : List Nat} (h : SimpleWF nF vF body) :
    headerFromOf (simpleMsg nF vF body) = trimSpace vF := by
  have hts : trimSpace vF ≠ [] := h.2.2.2.2.2
  have hget : hdrGetD [(strB "from", trimSpace vF)] (strB "from") =
      trimSpace vF := by
    rw [hdrGetD, hdrGet, if_pos rfl]
    rfl
  simp only [headerFromOf, parseBody_simple h, hget]
  rw [if_neg hts]

/-- **C3 (amended).** The original all-input equivalence is refuted (see the
counterexample: a plain body that is the base64 text of a token makes the
legacy fallback's base64 reinterpretation report a nonce the streaming
scanner does not).  What does hold: on every well-formed single-`From`
ASCII message with no `Content-Type` and no `Content-Transfer-Encoding`
header, the legacy fallback path and the streaming scanner agree — both
report the same trimmed `From` header value, the streaming scanner reports
exactly the leftmost body token (or nothing), and whenever the body
contains a complete token the legacy fallback reports that same nonce. -/
theorem C3_simple_agreement (nF vF body : List Nat)
    (h : SimpleWF nF vF body) :
    streamExtractHeaderFromAndNonce (simpleMsg nF vF body) =
      some (trimSpace vF, (firstToken body).getD []) ∧
    headerFromOf (simpleMsg nF vF body) = trimSpace vF ∧
    ∀ ds, firstToken body = some ds →
      findNonceWithFallback (parseBody (simpleMsg nF vF body)).1
        (splitHeaderBody (simpleMsg nF vF body)).2 = ds := by
  refine ⟨streamExtract_simple h, headerFromOf_simple h, ?_⟩
  intro ds hft
  have hmem := (firstToken_props hft).2.2
  have hbne : body ≠ [] := by
    intro hb
    rw [hb] at hmem
    simp at hmem
  rw [parseBody_simple h, splitHeaderBody_simple h, if_neg hbne]
  exact findNWF_firstToken hft

/-- Witness: the C3 agreement theorem at a concrete message. -/
theorem C3_simple_agreement_witness :
    SimpleWF (strB "From") (strB " a@b")
      (strB "[MAPAE:" ++ List.replicate 64 97 ++ [93]) ∧
    (streamExtractHeaderFromAndNonce
        (simpleMsg (strB "From") (strB " a@b")
          (strB "[MAPAE:" ++ List.replicate 64 97 ++ [93])) =
      some (trimSpace (strB " a@b"),
        (firstToken (strB "[MAPAE:" ++ List.replicate 64 97 ++ [93])).getD
          []) ∧
    headerFromOf (simpleMsg (strB "From") (strB " a@b")
        (strB "[MAPAE:" ++ List.replicate 64 97 ++ [93])) =
      trimSpace (strB " a@b") ∧
    ∀ ds,
      firstToken (strB "[MAPAE:" ++ List.replicate 64 97 ++ [93]) =
        some ds →
      findNonceWithFallback
        (parseBody (simpleMsg (strB "From") (strB " a@b")
          (strB "[MAPAE:" ++ List.replicate 64 97 ++ [93]))).1
        (splitHeaderBody (simpleMsg (strB "From") (strB " a@b")
          (strB "[MAPAE:" ++ List.replicate 64 97 ++ [93]))).2 = ds) :=
  ⟨by unfold SimpleWF; decide,
    C3_simple_agreement _ _ _ (by unfold SimpleWF; decide)⟩

end Mapae
